import Mathlib

/-!
Verification development for the adaptive uniform spatial grid
`GEOLIB::Grid<POINT>` (src/GEO/Grid.h).

The embedding models IEEE doubles by exact rationals (ℚ) and `size_t` by
natural numbers with explicit wrap-around modulo `W = 2^64` at every spot
where the C++ performs `size_t` arithmetic that can wrap.  A C++
`static_cast<size_t>` of a nonnegative double value truncates toward zero,
which on nonnegative rationals is `Int.toNat ∘ Int.floor`; for negative or
huge arguments the cast is undefined behaviour in C++ and the model keeps
the mathematical value `(⌊q⌋).toNat`.

The square roots appearing in `getNearestPoint` (`sqrt(sqr_min_dist)` and
the half edge length `len` of the verification cube) are irrational, so the
comparisons and floors involving them are encoded exactly by sign analysis
and squaring; see `sqrtLE`, `ltSqrt`, `gtSqrt`, `floorAddSqrt`,
`floorSubSqrt`.
-/

attribute [local semireducible] Rat.add Rat.mul Rat.sub Rat.inv Rat.ofScientific

namespace OGS

/-- machine epsilon of IEEE double, `std::numeric_limits<double>::epsilon() = 2^-52`. -/
def eps : ℚ := 1 / 4503599627370496

/-- relative boundary inflation factor `1e-6` used by the grid constructor. -/
def infl : ℚ := 1 / 1000000

/-- modulus of `size_t` arithmetic, `2^64`. -/
def W : ℕ := 18446744073709551616

/-- a 3-component coordinate (the data of a `POINT` as exposed by `getData()`). -/
def Pnt : Type := Fin 3 → ℚ

instance : DecidableEq Pnt := inferInstanceAs (DecidableEq (Fin 3 → ℚ))

/-- squared Euclidean distance of two 3-component coordinates.
Modelled from the spec: `MathLib::sqrDist` lives in the repository's math
module outside the sampled sources; the spec describes it as the squared
Euclidean distance used as ground truth for nearest-point queries. -/
def sqrDist (p0 p1 : Pnt) : ℚ :=
  (p0 0 - p1 0) ^ 2 + (p0 1 - p1 1) ^ 2 + (p0 2 - p1 2) ^ 2

/-- linear search for the least `m ≥ start` with `P m`, with explicit fuel.
Written with a bare `Nat.rec` so that the kernel can evaluate it step by
step on large fuel literals. -/
def searchLeast (P : ℕ → Bool) (fuel : ℕ) : ℕ → ℕ :=
  Nat.rec (motive := fun _ => ℕ → ℕ) (fun m => m)
    (fun _ ih m => if P m then m else ih (m + 1)) fuel

theorem searchLeast_zero (P : ℕ → Bool) (m : ℕ) : searchLeast P 0 m = m := rfl

theorem searchLeast_succ (P : ℕ → Bool) (fuel m : ℕ) :
    searchLeast P (fuel + 1) m = if P m then m else searchLeast P fuel (m + 1) := rfl

theorem searchLeast_ge (P : ℕ → Bool) : ∀ fuel m, m ≤ searchLeast P fuel m := by
  intro fuel
  induction fuel with
  | zero => intro m; exact Nat.le_refl m
  | succ f ih =>
    intro m
    rw [searchLeast_succ]
    by_cases h : P m
    · rw [if_pos h]
    · rw [if_neg h]
      exact Nat.le_trans (Nat.le_succ m) (ih (m + 1))

theorem searchLeast_found (P : ℕ → Bool) :
    ∀ fuel m, P (m + fuel) = true → P (searchLeast P fuel m) = true := by
  intro fuel
  induction fuel with
  | zero => intro m h; simpa using h
  | succ f ih =>
    intro m h
    rw [searchLeast_succ]
    by_cases hm : P m
    · rw [if_pos hm]; exact hm
    · rw [if_neg hm]
      have h' : P ((m + 1) + f) = true := by
        have e : m + (f + 1) = (m + 1) + f := by omega
        rwa [e] at h
      exact ih (m + 1) h'

theorem searchLeast_min (P : ℕ → Bool) :
    ∀ fuel m k, m ≤ k → k < searchLeast P fuel m → P k = false := by
  intro fuel
  induction fuel with
  | zero =>
    intro m k hmk hk
    rw [searchLeast_zero] at hk
    exact absurd hmk (Nat.not_le_of_lt hk)
  | succ f ih =>
    intro m k hmk hk
    rw [searchLeast_succ] at hk
    by_cases hm : P m
    · rw [if_pos hm] at hk
      exact absurd hmk (Nat.not_le_of_lt hk)
    · rw [if_neg hm] at hk
      rcases Nat.eq_or_lt_of_le hmk with h | hlt
      · subst h
        exact Bool.eq_false_iff.mpr (fun hc => hm (by rw [hc]))
      · exact ih (m + 1) k hlt hk

/-- least natural `n` with `q ≤ n ^ 2`; this is `ceil(sqrt(q))` of the C++
(idealized to exact arithmetic) for nonnegative arguments. -/
def ceilSqrt (q : ℚ) : ℕ :=
  if q ≤ 0 then 0
  else searchLeast (fun m => decide (q ≤ (m : ℚ) ^ 2)) ((⌈q⌉).toNat + 1) 0

/-- least natural `n` with `q ≤ n ^ 3`; this is `ceil(pow(q, 1./3.))` of the
C++ (idealized to exact arithmetic) for nonnegative arguments. -/
def ceilCbrt (q : ℚ) : ℕ :=
  if q ≤ 0 then 0
  else searchLeast (fun m => decide (q ≤ (m : ℚ) ^ 3)) ((⌈q⌉).toNat + 1) 0

theorem ceil_toNat_self_le (q : ℚ) (hq : 0 < q) : q ≤ (((⌈q⌉).toNat : ℕ) : ℚ) := by
  have hnn : (0 : ℤ) ≤ ⌈q⌉ := Int.ceil_nonneg hq.le
  have h : ((⌈q⌉).toNat : ℤ) = ⌈q⌉ := Int.toNat_of_nonneg hnn
  have h2 : (((⌈q⌉).toNat : ℕ) : ℚ) = ((⌈q⌉ : ℤ) : ℚ) := by exact_mod_cast congrArg (fun z : ℤ => (z : ℚ)) h
  rw [h2]
  exact Int.le_ceil q

theorem ceilSqrt_spec (q : ℚ) : q ≤ ((ceilSqrt q : ℕ) : ℚ) ^ 2 := by
  unfold ceilSqrt
  by_cases h : q ≤ 0
  · rw [if_pos h]
    exact h.trans (by norm_num)
  · rw [if_neg h]
    have hq : 0 < q := lt_of_not_ge h
    have hbig : q ≤ ((0 + ((⌈q⌉).toNat + 1) : ℕ) : ℚ) ^ 2 := by
      have h1 : q ≤ ((⌈q⌉).toNat : ℚ) := ceil_toNat_self_le q hq
      have hge : (0 : ℚ) ≤ ((⌈q⌉).toNat : ℚ) := Nat.cast_nonneg _
      have h2 : (((⌈q⌉).toNat : ℕ) : ℚ) ≤ ((0 + ((⌈q⌉).toNat + 1) : ℕ) : ℚ) ^ 2 := by
        push_cast
        nlinarith [hge]
      exact h1.trans h2
    have hfound : decide (q ≤ ((0 + ((⌈q⌉).toNat + 1) : ℕ) : ℚ) ^ 2) = true :=
      decide_eq_true hbig
    have hres := searchLeast_found (fun m => decide (q ≤ (m : ℚ) ^ 2)) ((⌈q⌉).toNat + 1) 0 hfound
    exact of_decide_eq_true hres

theorem ceilSqrt_min (q : ℚ) (k : ℕ) (hk : k < ceilSqrt q) : ((k : ℕ) : ℚ) ^ 2 < q := by
  unfold ceilSqrt at hk
  by_cases h : q ≤ 0
  · rw [if_pos h] at hk
    exact absurd hk (Nat.not_lt_zero k)
  · rw [if_neg h] at hk
    have hfalse := searchLeast_min (fun m => decide (q ≤ (m : ℚ) ^ 2)) ((⌈q⌉).toNat + 1) 0 k
      (Nat.zero_le k) hk
    have hnot : ¬ (q ≤ (k : ℚ) ^ 2) := of_decide_eq_false hfalse
    exact lt_of_not_ge hnot

/-- lower corner of the axis aligned bounding box of a point collection.
Modelled from the spec: the `GEOLIB::AABB` collaborator is outside the
sampled sources; the spec describes it as tracking running per-axis
minimum corners over `update` calls (fold of componentwise `min`).
For the empty collection the value is arbitrary (the spec leaves it
undefined); the model uses `0`. -/
def aabbMinPnt (pnts : List Pnt) (k : Fin 3) : ℚ :=
  match pnts with
  | [] => 0
  | p :: ps => ps.foldl (fun a q => min a (q k)) (p k)

/-- upper corner of the axis aligned bounding box of a point collection.
Modelled from the spec: fold of componentwise `max`; see `aabbMinPnt`. -/
def aabbMaxPnt (pnts : List Pnt) (k : Fin 3) : ℚ :=
  match pnts with
  | [] => 0
  | p :: ps => ps.foldl (fun a q => max a (q k)) (p k)

/-- boundary inflation of the upper bounding box corner on one axis
(Grid.h lines 154-165): first `_max_pnt[k] += std::abs(_max_pnt[k]) * 1e-6`,
then, if the result is below machine epsilon in magnitude, it is replaced by
`(_max_pnt[k] - _min_pnt[k]) * (1.0 + 1e-6)` (using the already updated
`_max_pnt[k]`). -/
def inflateMax (mn mx : ℚ) : ℚ :=
  let m1 := mx + |mx| * infl
  if |m1| < eps then (m1 - mn) * (1 + infl) else m1

/-- static_cast of a ceiled double value to `size_t` (defined for arguments
in `[0, 2^64)`; outside this range the C++ cast is undefined behaviour). -/
def ceilToSize (q : ℚ) : ℕ := (⌈q⌉).toNat

/-- the per-axis grid cell counts `_n_steps` computed by the constructor
(Grid.h lines 167-241): nested conditionals classifying degenerate axes by
comparing the inflated extents with machine epsilon. -/
def computeNSteps (n_pnts max_num_per_grid_cell : ℕ) (delta : Fin 3 → ℚ) : Fin 3 → ℕ :=
  if |delta 1| < eps ∨ |delta 2| < eps then
    if |delta 1| < eps ∧ |delta 2| < eps then
      ![ceilToSize ((n_pnts : ℚ) / (max_num_per_grid_cell : ℚ)), 1, 1]
    else if |delta 0| < eps ∧ |delta 2| < eps then
      ![1, ceilToSize ((n_pnts : ℚ) / (max_num_per_grid_cell : ℚ)), 1]
    else if |delta 0| < eps ∧ |delta 1| < eps then
      ![1, 1, ceilToSize ((n_pnts : ℚ) / (max_num_per_grid_cell : ℚ))]
    else if |delta 1| < eps then
      let n0 := ceilSqrt ((n_pnts : ℚ) * delta 0 / ((max_num_per_grid_cell : ℚ) * delta 2))
      ![n0, 1, ceilToSize ((n0 : ℚ) * delta 2 / delta 0)]
    else
      let n0 := ceilSqrt ((n_pnts : ℚ) * delta 0 / ((max_num_per_grid_cell : ℚ) * delta 1))
      ![n0, ceilToSize ((n0 : ℚ) * delta 1 / delta 0), 1]
  else
    let n0 := ceilCbrt ((n_pnts : ℚ) * delta 0 * delta 0 /
      ((max_num_per_grid_cell : ℚ) * delta 1 * delta 2))
    ![n0, ceilToSize ((n0 : ℚ) * delta 1 / delta 0), ceilToSize ((n0 : ℚ) * delta 2 / delta 0)]

/-- static_cast of a double value to `size_t`: truncation toward zero, which
for nonnegative values equals `(⌊q⌋).toNat` (negative or overflowing
arguments are undefined behaviour in C++). -/
def toSize (q : ℚ) : ℕ := (⌊q⌋).toNat

/-- the flattened bucket index `i + j*_n_steps[0] + k*_n_steps[0]*_n_steps[1]`
with `size_t` wrap-around. -/
def flatIdx (n_steps : Fin 3 → ℕ) (i j k : ℕ) : ℕ :=
  (i + j * n_steps 0 + k * (n_steps 0 * n_steps 1)) % W

/-- the grid data structure `GEOLIB::Grid<POINT>` (its owned state). -/
structure Grid where
  min_pnt : Fin 3 → ℚ
  max_pnt : Fin 3 → ℚ
  step_sizes : Fin 3 → ℚ
  inverse_step_sizes : Fin 3 → ℚ
  n_steps : Fin 3 → ℕ
  grid_quad_to_node_map : ℕ → List Pnt

/-- the cell coordinate of a stored point on one axis, as computed by the
constructor fill loop (Grid.h lines 260-265):
`static_cast<size_t>((pnt[k] - _min_pnt[k]) * _inverse_step_sizes[k])`. -/
def Grid.pntCoord (g : Grid) (p : Pnt) (k : Fin 3) : ℕ :=
  toSize ((p k - g.min_pnt k) * g.inverse_step_sizes k)

/-- flattened bucket index of a stored point. -/
def Grid.pntFlat (g : Grid) (p : Pnt) : ℕ :=
  flatIdx g.n_steps (g.pntCoord p 0) (g.pntCoord p 1) (g.pntCoord p 2)

/-- the constructor fill loop (Grid.h lines 256-275): every point is appended
to the bucket at its flattened cell index.  When the computed cell coordinate
is out of range the C++ prints `error computing indices` to stdout and still
performs the `push_back` on `_grid_quad_to_node_map[...]`; the model mirrors
this by updating the bucket map at that (possibly out of range) index. -/
def fillGrid (g0 : Grid) (pnts : List Pnt) : ℕ → List Pnt :=
  pnts.foldl
    (fun m p => Function.update m (g0.pntFlat p) (m (g0.pntFlat p) ++ [p]))
    (fun _ => [])

/-- the grid constructor `Grid<POINT>::Grid` (Grid.h lines 143-284):
bounding box, boundary inflation, cell counts, step sizes and their
inverses (with fallback `1.0` for zero step size), and the fill loop. -/
def Grid.build (pnts : List Pnt) (max_num_per_grid_cell : ℕ) : Grid :=
  let mn : Fin 3 → ℚ := aabbMinPnt pnts
  let mx : Fin 3 → ℚ := fun k => inflateMax (aabbMinPnt pnts k) (aabbMaxPnt pnts k)
  let delta : Fin 3 → ℚ := fun k => mx k - mn k
  let ns : Fin 3 → ℕ := computeNSteps pnts.length max_num_per_grid_cell delta
  let step : Fin 3 → ℚ := fun k => delta k / (ns k : ℚ)
  let inv : Fin 3 → ℚ := fun k => if step k = 0 then 1 else 1 / step k
  let g0 : Grid :=
    { min_pnt := mn, max_pnt := mx, step_sizes := step, inverse_step_sizes := inv,
      n_steps := ns, grid_quad_to_node_map := fun _ => [] }
  { g0 with grid_quad_to_node_map := fillGrid g0 pnts }

/-- size_t subtraction by one, `_n_steps[k] - 1`, with wrap-around. -/
def szSub1 (n : ℕ) : ℕ := (n + (W - 1)) % W

/-- size_t addition with wrap-around. -/
def szAdd (a b : ℕ) : ℕ := (a + b) % W

/-- size_t subtraction with wrap-around (second operand reduced mod `W`). -/
def szSub (a b : ℕ) : ℕ := (a + (W - b % W)) % W

/-- the ascending iteration values of a C++ loop
`for (x = s; x < b; x++)` over `size_t`: empty when `b ≤ s`. -/
def szRange (s b : ℕ) : List ℕ := List.range' s (b - s)

/-- `Grid<POINT>::getGridCoords` (Grid.h lines 523-545): clamp below to `0`,
above to `_n_steps[k] - 1`, otherwise truncate
`(pnt[k] - _min_pnt[k]) * _inverse_step_sizes[k]`. -/
def Grid.getGridCoords (g : Grid) (pnt : Fin 3 → ℚ) (k : Fin 3) : ℕ :=
  if pnt k < g.min_pnt k then 0
  else if g.max_pnt k < pnt k then szSub1 (g.n_steps k)
  else toSize ((pnt k - g.min_pnt k) * g.inverse_step_sizes k)

/-- first-encounter minimum of squared distances over a bucket, the loop of
`Grid<POINT>::calcNearestPointInGridCell` (Grid.h lines 558-571). -/
def nearestInBucket (q : Fin 3 → ℚ) : List Pnt → Option (Pnt × ℚ)
  | [] => none
  | p :: ps =>
    some (ps.foldl
      (fun b p' => if sqrDist p' q < b.2 then (p', sqrDist p' q) else b)
      (p, sqrDist p q))

/-- `Grid<POINT>::calcNearestPointInGridCell` (Grid.h lines 547-572):
returns `none` (C++ `false`) on an empty bucket, otherwise the bucket point
of minimum squared distance to `pnt` together with that squared distance. -/
def Grid.calcNearestPointInGridCell (g : Grid) (pnt : Fin 3 → ℚ) (c : Fin 3 → ℕ) :
    Option (Pnt × ℚ) :=
  nearestInBucket pnt (g.grid_quad_to_node_map (flatIdx g.n_steps (c 0) (c 1) (c 2)))

/-- `Grid<POINT>::getPointCellBorderDistances` (Grid.h lines 574-587),
exactly as written in the source (note the `+ coords[k] * _step_sizes[k]`
terms): order bottom, front, right, back, left, top. -/
def Grid.getPointCellBorderDistances (g : Grid) (pnt : Fin 3 → ℚ) (c : Fin 3 → ℕ) :
    Fin 6 → ℚ :=
  let d0 := pnt 2 - g.min_pnt 2 + (c 2 : ℚ) * g.step_sizes 2
  let d1 := pnt 1 - g.min_pnt 1 + (c 1 : ℚ) * g.step_sizes 1
  let d4 := pnt 0 - g.min_pnt 0 + (c 0 : ℚ) * g.step_sizes 0
  ![d0, d1, g.step_sizes 0 - d4, g.step_sizes 1 - d1, d4, g.step_sizes 2 - d0]

/-- the triple loop of `Grid<POINT>::getPointsWithinCube` (Grid.h lines
394-418) appending every visited bucket to the output vector, for given
resolved corner cell coordinates. -/
def Grid.cubeScan (g : Grid) (mnc mxc : Fin 3 → ℕ) (pnts : List Pnt) : List Pnt :=
  (szRange (mnc 0) (szAdd (mxc 0) 1)).foldl (fun acc0 c0 =>
    (szRange (mnc 1) (szAdd (mxc 1) 1)).foldl (fun acc1 c1 =>
      (szRange (mnc 2) (szAdd (mxc 2) 1)).foldl (fun acc2 c2 =>
        acc2 ++ g.grid_quad_to_node_map (flatIdx g.n_steps c0 c1 c2)) acc1) acc0) pnts

/-- `Grid<POINT>::getPointsWithinCube` (Grid.h lines 379-419): resolve the
two cube corners `pnt ∓ half_len` to cell coordinates and append the bucket
contents of the inclusive cell range to `pnts`. -/
def Grid.getPointsWithinCube (g : Grid) (pnt : Fin 3 → ℚ) (half_len : ℚ)
    (pnts : List Pnt) : List Pnt :=
  g.cubeScan (g.getGridCoords (fun k => pnt k - half_len))
    (g.getGridCoords (fun k => pnt k + half_len)) pnts

/-! Exact encodings of the comparisons and floors involving the square root
`√u` of a nonnegative rational `u` (the C++ computes `min_dist =
sqrt(sqr_min_dist)` and `len = sqrt(sqrDist(pnt, nearest_pnt))` as doubles;
the model treats them as exact real square roots and encodes every use by
sign analysis and squaring). -/

/-- exact test `√u ≤ d` for `u ≥ 0`: both `0 ≤ d` and `u ≤ d ^ 2`.
Encodes the comparisons `dists[i] >= min_dist` of Grid.h lines 301-303. -/
def sqrtLE (u d : ℚ) : Bool := decide (0 ≤ d ∧ u ≤ d ^ 2)

/-- exact test `d < √u` for `u ≥ 0`: `d < 0` or `d ^ 2 < u`. -/
def ltSqrt (d u : ℚ) : Bool := decide (d < 0 ∨ d ^ 2 < u)

/-- exact test `√u < d` for `u ≥ 0`: `0 ≤ d` and `u < d ^ 2`. -/
def gtSqrt (d u : ℚ) : Bool := decide (0 ≤ d ∧ u < d ^ 2)

/-- exact value of `⌊t + √u⌋` for `u ≥ 0`: `⌊t⌋` plus the greatest `m` with
`⌊t⌋ + m ≤ t + √u`, i.e. the least `m` with `u < (⌊t⌋ + m + 1 - t) ^ 2`. -/
def floorAddSqrt (t u : ℚ) : ℤ :=
  Rat.floor t + (searchLeast
    (fun m => decide (u < ((Rat.floor t : ℚ) + (m : ℚ) + 1 - t) ^ 2))
    (ceilSqrt u + 1) 0 : ℕ)

/-- exact value of `⌊t - √u⌋` for `u ≥ 0`: `⌊t⌋` minus the least `m` with
`⌊t⌋ - m ≤ t - √u`, i.e. the least `m` with `u ≤ (t - ⌊t⌋ + m) ^ 2`. -/
def floorSubSqrt (t u : ℚ) : ℤ :=
  Rat.floor t - (searchLeast
    (fun m => decide (u ≤ (t - (Rat.floor t : ℚ) + (m : ℚ)) ^ 2))
    (ceilSqrt u + 1) 0 : ℕ)

/-- `getGridCoords` evaluated at the shifted coordinate `pnt[k] - √u`
(the lower cube corner inside `getNearestPoint`), encoded exactly. -/
def Grid.gridCoordsSubSqrt (g : Grid) (pnt : Fin 3 → ℚ) (u : ℚ) (k : Fin 3) : ℕ :=
  if ltSqrt (pnt k - g.min_pnt k) u then 0
  else if gtSqrt (pnt k - g.max_pnt k) u then szSub1 (g.n_steps k)
  else
    let i := g.inverse_step_sizes k
    if 0 ≤ i then (floorSubSqrt ((pnt k - g.min_pnt k) * i) (u * i ^ 2)).toNat
    else (floorAddSqrt ((pnt k - g.min_pnt k) * i) (u * i ^ 2)).toNat

/-- `getGridCoords` evaluated at the shifted coordinate `pnt[k] + √u`
(the upper cube corner inside `getNearestPoint`), encoded exactly. -/
def Grid.gridCoordsAddSqrt (g : Grid) (pnt : Fin 3 → ℚ) (u : ℚ) (k : Fin 3) : ℕ :=
  if gtSqrt (g.min_pnt k - pnt k) u then 0
  else if ltSqrt (g.max_pnt k - pnt k) u then szSub1 (g.n_steps k)
  else
    let i := g.inverse_step_sizes k
    if 0 ≤ i then (floorAddSqrt ((pnt k - g.min_pnt k) * i) (u * i ^ 2)).toNat
    else (floorSubSqrt ((pnt k - g.min_pnt k) * i) (u * i ^ 2)).toNat

/-- the call `getPointsWithinCube(pnt, len, pnts)` of Grid.h line 363 with
the irrational half edge length `len = √u`, encoded exactly. -/
def Grid.getPointsWithinCubeSqrt (g : Grid) (pnt : Fin 3 → ℚ) (u : ℚ) : List Pnt :=
  g.cubeScan (fun k => g.gridCoordsSubSqrt pnt u k)
    (fun k => g.gridCoordsAddSqrt pnt u k) []

/-- the final widen-and-verify step of `getNearestPoint` (Grid.h lines
360-376): collect all points of the cells meeting the cube of half edge
length `len = sqrt(sqrDist(pnt, nearest_pnt))` around `pnt` and take the
point of minimum squared distance, starting from the current candidate. -/
def Grid.finalize (g : Grid) (pnt : Fin 3 → ℚ) (np : Pnt) (s : ℚ) : Pnt :=
  let pnts := g.getPointsWithinCubeSqrt pnt (sqrDist pnt np)
  (pnts.foldl
    (fun b p => if sqrDist pnt p < b.2 then (p, sqrDist pnt p) else b)
    (np, s)).1

/-- one full pass of the expanding ring search at a given offset (the three
nested `for` loops of Grid.h lines 317-355), threading the running state
`(sqr_min_dist, nearest_pnt)`.  The loop bounds perform `size_t` arithmetic
with wrap-around, exactly as the C++ does. -/
def Grid.ringPass (g : Grid) (pnt : Fin 3 → ℚ) (c : Fin 3 → ℕ) (o : ℕ)
    (st : ℚ × Option Pnt) : ℚ × Option Pnt :=
  (szRange (szSub (c 0) o) (szAdd (c 0) o)).foldl (fun st0 t0 =>
    (szRange (szSub (c 1) o) (szAdd (c 1) o)).foldl (fun st1 t1 =>
      (szRange (szSub (c 2) o) (szAdd (c 2) o)).foldl (fun st2 t2 =>
        if t0 = c 0 ∧ t1 = c 1 ∧ t2 = c 2 then st2
        else if t0 < g.n_steps 0 ∧ t1 < g.n_steps 1 ∧ t2 < g.n_steps 2 then
          match g.calcNearestPointInGridCell pnt ![t0, t1, t2] with
          | some (p, d) => if d < st2.1 then (d, some p) else st2
          | none => st2
        else st2) st1) st0) st

/-- the `while (nearest_pnt == NULL)` loop of Grid.h lines 315-357 with an
explicit fuel for the number of passes; the C++ increments `offset` without
bound (wrapping at `2^64`), so a run that never finds a candidate never
terminates, which the model renders as `none` for every fuel. -/
def Grid.ringLoop (g : Grid) (pnt : Fin 3 → ℚ) (c : Fin 3 → ℕ) :
    ℕ → ℕ → ℚ → Option (Pnt × ℚ)
  | 0, _, _ => none
  | fuel + 1, o, s =>
    match g.ringPass pnt c o (s, none) with
    | (s', some p) => some (p, s')
    | (s', none) => g.ringLoop pnt c fuel (o + 1) s'

/-- `Grid<POINT>::getNearestPoint` (Grid.h lines 286-377).  The result is
`none` when the C++ would dereference no point: either the expanding ring
search never terminates (fuel exhausted in the model) — the C++ then loops
forever — or on an empty grid. -/
def Grid.getNearestPoint (g : Grid) (pnt : Fin 3 → ℚ) (fuel : ℕ) : Option Pnt :=
  let coords := g.getGridCoords pnt
  let sqr_min_dist := sqrDist g.min_pnt g.max_pnt
  let dists := g.getPointCellBorderDistances pnt coords
  match g.calcNearestPointInGridCell pnt coords with
  | some (np, s) =>
    if sqrtLE s (dists 0) ∧ sqrtLE s (dists 1) ∧ sqrtLE s (dists 2) ∧
        sqrtLE s (dists 3) ∧ sqrtLE s (dists 4) ∧ sqrtLE s (dists 5) then
      some np
    else
      some (g.finalize pnt np s)
  | none =>
    match g.ringLoop pnt coords fuel 1 sqr_min_dist with
    | some (np, s) => some (g.finalize pnt np s)
    | none => none

/-- state-passing form of the `const` method `getNearestPoint`: the method
assigns no member of the grid (all its writes are to locals), so its
state-passing translation returns the receiver unchanged. -/
def Grid.getNearestPointSt (g : Grid) (pnt : Fin 3 → ℚ) (fuel : ℕ) :
    Option Pnt × Grid :=
  (g.getNearestPoint pnt fuel, g)

/-- state-passing form of the `const` method `getPointsWithinCube`; see
`Grid.getNearestPointSt`. -/
def Grid.getPointsWithinCubeSt (g : Grid) (pnt : Fin 3 → ℚ) (half_len : ℚ)
    (pnts : List Pnt) : List Pnt × Grid :=
  (g.getPointsWithinCube pnt half_len pnts, g)

/-! Field equations of the constructor. -/

theorem build_min_pnt (pnts : List Pnt) (m : ℕ) :
    (Grid.build pnts m).min_pnt = aabbMinPnt pnts := rfl

theorem build_max_pnt (pnts : List Pnt) (m : ℕ) :
    (Grid.build pnts m).max_pnt =
      fun k => inflateMax (aabbMinPnt pnts k) (aabbMaxPnt pnts k) := rfl

theorem build_n_steps (pnts : List Pnt) (m : ℕ) :
    (Grid.build pnts m).n_steps =
      computeNSteps pnts.length m
        (fun k => (Grid.build pnts m).max_pnt k - (Grid.build pnts m).min_pnt k) := rfl

theorem build_step_sizes (pnts : List Pnt) (m : ℕ) (k : Fin 3) :
    (Grid.build pnts m).step_sizes k =
      ((Grid.build pnts m).max_pnt k - (Grid.build pnts m).min_pnt k) /
        ((Grid.build pnts m).n_steps k : ℚ) := rfl

theorem build_inverse_step_sizes (pnts : List Pnt) (m : ℕ) (k : Fin 3) :
    (Grid.build pnts m).inverse_step_sizes k =
      if (Grid.build pnts m).step_sizes k = 0 then 1
      else 1 / (Grid.build pnts m).step_sizes k := rfl

theorem build_map (pnts : List Pnt) (m : ℕ) :
    (Grid.build pnts m).grid_quad_to_node_map = fillGrid (Grid.build pnts m) pnts := rfl

/-! The fill loop: each bucket holds exactly the input points whose
flattened cell index equals the bucket index, in input order. -/

theorem fill_go (g : Grid) :
    ∀ (pnts : List Pnt) (m0 : ℕ → List Pnt) (f : ℕ),
      (pnts.foldl
        (fun m p => Function.update m (g.pntFlat p) (m (g.pntFlat p) ++ [p])) m0) f
        = m0 f ++ pnts.filter (fun p => g.pntFlat p = f) := by
  intro pnts
  induction pnts with
  | nil => intro m0 f; simp
  | cons p ps ih =>
    intro m0 f
    rw [List.foldl_cons, ih, List.filter_cons]
    by_cases h : g.pntFlat p = f
    · rw [Function.update_apply, if_pos h.symm]
      simp [h]
    · rw [Function.update_apply, if_neg (fun hc => h hc.symm)]
      simp [h]

theorem bucket_eq_filter (pnts : List Pnt) (m f : ℕ) :
    (Grid.build pnts m).grid_quad_to_node_map f
      = pnts.filter (fun p => (Grid.build pnts m).pntFlat p = f) := by
  rw [build_map]
  exact fill_go (Grid.build pnts m) pnts (fun _ => []) f

theorem mem_bucket_iff (pnts : List Pnt) (m f : ℕ) (p : Pnt) :
    p ∈ (Grid.build pnts m).grid_quad_to_node_map f
      ↔ p ∈ pnts ∧ (Grid.build pnts m).pntFlat p = f := by
  rw [bucket_eq_filter]
  simp [List.mem_filter]

/-! Arithmetic facts about the flattened index. -/

theorem flatIdx_raw_lt (ns : Fin 3 → ℕ) (i j k : ℕ)
    (hi : i < ns 0) (hj : j < ns 1) (hk : k < ns 2) :
    i + j * ns 0 + k * (ns 0 * ns 1) < ns 0 * ns 1 * ns 2 := by
  have h1 : i + j * ns 0 < ns 0 * ns 1 := by
    calc i + j * ns 0 < ns 0 + j * ns 0 := by omega
    _ = (j + 1) * ns 0 := by ring
    _ ≤ ns 1 * ns 0 := Nat.mul_le_mul_right _ hj
    _ = ns 0 * ns 1 := Nat.mul_comm _ _
  calc i + j * ns 0 + k * (ns 0 * ns 1)
      < ns 0 * ns 1 + k * (ns 0 * ns 1) := by omega
  _ = (k + 1) * (ns 0 * ns 1) := by ring
  _ ≤ ns 2 * (ns 0 * ns 1) := Nat.mul_le_mul_right _ hk
  _ = ns 0 * ns 1 * ns 2 := by ring

theorem flatIdx_eq_raw (ns : Fin 3 → ℕ) (i j k : ℕ)
    (hi : i < ns 0) (hj : j < ns 1) (hk : k < ns 2)
    (hT : ns 0 * ns 1 * ns 2 ≤ W) :
    flatIdx ns i j k = i + j * ns 0 + k * (ns 0 * ns 1) := by
  unfold flatIdx
  exact Nat.mod_eq_of_lt (lt_of_lt_of_le (flatIdx_raw_lt ns i j k hi hj hk) hT)

theorem pntFlat_lt (g : Grid) (p : Pnt)
    (h0 : g.pntCoord p 0 < g.n_steps 0) (h1 : g.pntCoord p 1 < g.n_steps 1)
    (h2 : g.pntCoord p 2 < g.n_steps 2)
    (hT : g.n_steps 0 * g.n_steps 1 * g.n_steps 2 ≤ W) :
    g.pntFlat p < g.n_steps 0 * g.n_steps 1 * g.n_steps 2 := by
  unfold Grid.pntFlat
  rw [flatIdx_eq_raw g.n_steps _ _ _ h0 h1 h2 hT]
  exact flatIdx_raw_lt g.n_steps _ _ _ h0 h1 h2

/-- summing the filtered lengths over all in-range bucket indices counts
every point whose flattened index is in range exactly once. -/
theorem sum_filter_lengths (g : Grid) (T : ℕ) :
    ∀ pnts : List Pnt, (∀ p ∈ pnts, g.pntFlat p < T) →
      (∑ f ∈ Finset.range T, (pnts.filter (fun p => g.pntFlat p = f)).length)
        = pnts.length := by
  intro pnts
  induction pnts with
  | nil => intro _; simp
  | cons p ps ih =>
    intro hall
    have hp : g.pntFlat p < T := hall p (List.mem_cons_self p ps)
    have hps : ∀ q ∈ ps, g.pntFlat q < T := fun q hq => hall q (List.mem_cons_of_mem p hq)
    have hsplit : ∀ f : ℕ,
        ((p :: ps).filter (fun r => g.pntFlat r = f)).length
          = (if g.pntFlat p = f then 1 else 0)
            + (ps.filter (fun r => g.pntFlat r = f)).length := by
      intro f
      rw [List.filter_cons]
      by_cases h : g.pntFlat p = f
      · simp [h, Nat.add_comm]
      · simp [h]
    calc (∑ f ∈ Finset.range T, ((p :: ps).filter (fun r => g.pntFlat r = f)).length)
        = ∑ f ∈ Finset.range T,
            ((if g.pntFlat p = f then 1 else 0)
              + (ps.filter (fun r => g.pntFlat r = f)).length) := by
          exact Finset.sum_congr rfl (fun f _ => hsplit f)
    _ = (∑ f ∈ Finset.range T, (if g.pntFlat p = f then 1 else 0))
          + ∑ f ∈ Finset.range T, (ps.filter (fun r => g.pntFlat r = f)).length := by
          rw [Finset.sum_add_distrib]
    _ = 1 + ps.length := by
          rw [ih hps]
          congr 1
          rw [Finset.sum_ite_eq (Finset.range T) (g.pntFlat p) (fun _ => 1)]
          simp [Finset.mem_range.mpr hp]
    _ = (p :: ps).length := by simp [Nat.add_comm]

/-- total number of buckets of a grid. -/
def Grid.totalCells (g : Grid) : ℕ := g.n_steps 0 * g.n_steps 1 * g.n_steps 2

/-- C3 (amended): after construction, if every point's computed cell
coordinate lies within `[0, _n_steps[k])` on all three axes (and the bucket
array size does not exceed the `size_t` range), then the sum of all bucket
sizes equals the number of input points.  The unamended claim fails when a
computed coordinate is out of range: the point is then pushed past the end
of the bucket array (see `C3_cex` and claim C7). -/
theorem C3_bucket_sum (pnts : List Pnt) (m : ℕ)
    (hin : ∀ p ∈ pnts, ∀ k : Fin 3,
      (Grid.build pnts m).pntCoord p k < (Grid.build pnts m).n_steps k)
    (hT : (Grid.build pnts m).totalCells ≤ W) :
    (∑ f ∈ Finset.range (Grid.build pnts m).totalCells,
      ((Grid.build pnts m).grid_quad_to_node_map f).length) = pnts.length := by
  have hsum : (∑ f ∈ Finset.range (Grid.build pnts m).totalCells,
      ((Grid.build pnts m).grid_quad_to_node_map f).length)
      = ∑ f ∈ Finset.range (Grid.build pnts m).totalCells,
        (pnts.filter (fun p => (Grid.build pnts m).pntFlat p = f)).length :=
    Finset.sum_congr rfl (fun f _ => by rw [bucket_eq_filter])
  rw [hsum]
  exact sum_filter_lengths (Grid.build pnts m) (Grid.build pnts m).totalCells pnts
    (fun p hp => pntFlat_lt (Grid.build pnts m) p
      (hin p hp 0) (hin p hp 1) (hin p hp 2) hT)

/-- first point of the bucket-overflow counterexample (all claims use
distinct concrete data): coordinates `(0, 2^-61, 0)`. -/
def pntA : Pnt := ![0, 1 / 2305843009213693952, 0]

/-- second point of the bucket-overflow counterexample: coordinates
`(1, 2^-60, 0)`.  On axis 1 the inflated upper bound drops below this
coordinate (the `|max| < eps` reassignment shrinks it), so its computed
cell coordinate on axis 1 is `333333` although the grid has a single cell
on that axis. -/
def pntB : Pnt := ![1, 1 / 1152921504606846976, 0]

/-- C3 (counterexample): for the two-point collection `[pntA, pntB]` with
target density 1, the sum of all bucket sizes is 1, not 2: `pntB` is pushed
at flattened index 666667, far outside the 2-bucket array (heap corruption
in the C++). -/
theorem C3_cex :
    (∑ f ∈ Finset.range (Grid.build [pntA, pntB] 1).totalCells,
      ((Grid.build [pntA, pntB] 1).grid_quad_to_node_map f).length)
      ≠ ([pntA, pntB] : List Pnt).length := by decide

/-- concrete witness data: two points on the x axis. -/
def wPnts : List Pnt := [![0, 0, 0], ![1, 0, 0]]

/-- witness for `C3_bucket_sum` at `wPnts`, target density 512. -/
theorem C3_bucket_sum_witness :
    (∀ p ∈ wPnts, ∀ k : Fin 3,
      (Grid.build wPnts 512).pntCoord p k < (Grid.build wPnts 512).n_steps k)
    ∧ (∑ f ∈ Finset.range (Grid.build wPnts 512).totalCells,
        ((Grid.build wPnts 512).grid_quad_to_node_map f).length) = wPnts.length :=
  ⟨by decide, C3_bucket_sum wPnts 512 (by decide) (by decide)⟩

/-! Structure of the cube range query output. -/

theorem foldl_append_join {α β : Type} (f : α → List β) :
    ∀ (l : List α) (init : List β),
      l.foldl (fun acc c => acc ++ f c) init = init ++ (l.map f).flatten := by
  intro l
  induction l with
  | nil => intro init; simp
  | cons c cs ih =>
    intro init
    rw [List.foldl_cons, ih, List.map_cons, List.flatten]
    simp [List.append_assoc]

/-- the concatenated bucket contents of all cells in the inclusive
three-dimensional cell range between two corner coordinates, in the loop
order of the source (axis 0 outermost, then axis 1, then axis 2). -/
def concatBuckets (g : Grid) (mnc mxc : Fin 3 → ℕ) : List Pnt :=
  ((szRange (mnc 0) (szAdd (mxc 0) 1)).map (fun c0 =>
    ((szRange (mnc 1) (szAdd (mxc 1) 1)).map (fun c1 =>
      ((szRange (mnc 2) (szAdd (mxc 2) 1)).map (fun c2 =>
        g.grid_quad_to_node_map (flatIdx g.n_steps c0 c1 c2))).flatten)).flatten)).flatten

theorem cubeScan_eq_concat (g : Grid) (mnc mxc : Fin 3 → ℕ) (init : List Pnt) :
    g.cubeScan mnc mxc init = init ++ concatBuckets g mnc mxc := by
  have h2 : ∀ (c0 c1 : ℕ) (a : List Pnt),
      (szRange (mnc 2) (szAdd (mxc 2) 1)).foldl (fun acc2 c2 =>
        acc2 ++ g.grid_quad_to_node_map (flatIdx g.n_steps c0 c1 c2)) a
      = a ++ ((szRange (mnc 2) (szAdd (mxc 2) 1)).map (fun c2 =>
          g.grid_quad_to_node_map (flatIdx g.n_steps c0 c1 c2))).flatten :=
    fun c0 c1 a => foldl_append_join _ _ a
  have h1 : ∀ (c0 : ℕ) (a : List Pnt),
      (szRange (mnc 1) (szAdd (mxc 1) 1)).foldl (fun acc1 c1 =>
        (szRange (mnc 2) (szAdd (mxc 2) 1)).foldl (fun acc2 c2 =>
          acc2 ++ g.grid_quad_to_node_map (flatIdx g.n_steps c0 c1 c2)) acc1) a
      = a ++ ((szRange (mnc 1) (szAdd (mxc 1) 1)).map (fun c1 =>
          ((szRange (mnc 2) (szAdd (mxc 2) 1)).map (fun c2 =>
            g.grid_quad_to_node_map (flatIdx g.n_steps c0 c1 c2))).flatten)).flatten := by
    intro c0 a
    simp only [h2]
    exact foldl_append_join _ _ a
  unfold Grid.cubeScan concatBuckets
  simp only [h1]
  exact foldl_append_join _ _ init

/-- C10: `getPointsWithinCube` only appends to the caller-supplied output
vector: the pre-existing contents are preserved unchanged, in order, as a
prefix of the result, followed by exactly the points the same query yields
on an empty output vector. -/
theorem C10_append_frame (g : Grid) (pnt : Fin 3 → ℚ) (half_len : ℚ)
    (init : List Pnt) :
    g.getPointsWithinCube pnt half_len init
      = init ++ g.getPointsWithinCube pnt half_len [] := by
  unfold Grid.getPointsWithinCube
  rw [cubeScan_eq_concat, cubeScan_eq_concat]
  simp

/-- C9: the two query methods are `const` and assign no member: their
state-passing forms return the grid (all of `min_pnt`, `max_pnt`,
`step_sizes`, `inverse_step_sizes`, `n_steps`, and the bucket array)
unchanged, and repeating either query on the post-state yields the
identical result. -/
theorem C9_queries_pure (g : Grid) (q : Fin 3 → ℚ) (fuel : ℕ)
    (c : Fin 3 → ℚ) (h : ℚ) (v : List Pnt) :
    (g.getNearestPointSt q fuel).2 = g
    ∧ (g.getPointsWithinCubeSt c h v).2 = g
    ∧ ((g.getNearestPointSt q fuel).2.getNearestPointSt q fuel).1
        = (g.getNearestPointSt q fuel).1
    ∧ ((g.getPointsWithinCubeSt c h v).2.getPointsWithinCubeSt c h v).1
        = (g.getPointsWithinCubeSt c h v).1 :=
  ⟨rfl, rfl, rfl, rfl⟩

/-! Bounding box folds. -/

theorem foldl_min_le (k : Fin 3) :
    ∀ (ps : List Pnt) (a : ℚ),
      ps.foldl (fun x r => min x (r k)) a ≤ a
      ∧ ∀ p ∈ ps, ps.foldl (fun x r => min x (r k)) a ≤ p k := by
  intro ps
  induction ps with
  | nil => intro a; exact ⟨le_refl a, by intro p hp; cases hp⟩
  | cons r rs ih =>
    intro a
    rw [List.foldl_cons]
    refine ⟨(ih (min a (r k))).1.trans (min_le_left _ _), ?_⟩
    intro p hp
    rcases List.mem_cons.mp hp with h | h
    · subst h
      exact (ih (min a (p k))).1.trans (min_le_right _ _)
    · exact (ih (min a (r k))).2 p h

theorem foldl_max_ge (k : Fin 3) :
    ∀ (ps : List Pnt) (a : ℚ),
      a ≤ ps.foldl (fun x r => max x (r k)) a
      ∧ ∀ p ∈ ps, p k ≤ ps.foldl (fun x r => max x (r k)) a := by
  intro ps
  induction ps with
  | nil => intro a; exact ⟨le_refl a, by intro p hp; cases hp⟩
  | cons r rs ih =>
    intro a
    rw [List.foldl_cons]
    refine ⟨(le_max_left _ _).trans (ih (max a (r k))).1, ?_⟩
    intro p hp
    rcases List.mem_cons.mp hp with h | h
    · subst h
      exact (le_max_right _ _).trans (ih (max a (p k))).1
    · exact (ih (max a (r k))).2 p h

theorem aabbMin_le (pnts : List Pnt) (k : Fin 3) (p : Pnt) (hp : p ∈ pnts) :
    aabbMinPnt pnts k ≤ p k := by
  cases pnts with
  | nil => cases hp
  | cons r rs =>
    unfold aabbMinPnt
    rcases List.mem_cons.mp hp with h | h
    · subst h
      exact (foldl_min_le k rs (p k)).1
    · exact (foldl_min_le k rs (r k)).2 p h

theorem aabbMax_ge (pnts : List Pnt) (k : Fin 3) (p : Pnt) (hp : p ∈ pnts) :
    p k ≤ aabbMaxPnt pnts k := by
  cases pnts with
  | nil => cases hp
  | cons r rs =>
    unfold aabbMaxPnt
    rcases List.mem_cons.mp hp with h | h
    · subst h
      exact (foldl_max_ge k rs (p k)).1
    · exact (foldl_max_ge k rs (r k)).2 p h

/-! Cell coordinate resolution: range lemmas. -/

theorem szSub1_eq (n : ℕ) (h1 : 1 ≤ n) (h2 : n < W) : szSub1 n = n - 1 := by
  unfold szSub1 W
  unfold W at h2
  omega

theorem toSize_lt (x : ℚ) (n : ℕ) (h1 : 1 ≤ n) (h : x < (n : ℚ)) : toSize x < n := by
  unfold toSize
  have hfl : ⌊x⌋ < (n : ℤ) := Int.floor_lt.mpr (by exact_mod_cast h)
  omega

theorem toSize_zero : toSize 0 = 0 := by
  unfold toSize
  simp

/-- C5 (amended): for a grid built from a point collection whose cell counts
are all at least 1 (and below the `size_t` range), `getGridCoords` yields an
in-range cell coordinate `[0, _n_steps[k] - 1]` on every axis for every
query coordinate, except when a query coordinate equals the inflated upper
bounding box corner exactly on an axis of positive step size — there the
truncation yields `_n_steps[k]`, one past the valid range (see `C5_cex`).
The amendment excludes that boundary case via the third hypothesis. -/
theorem C5_gridCoords_range (pnts : List Pnt) (m : ℕ) (q : Fin 3 → ℚ)
    (h1 : ∀ k : Fin 3, 1 ≤ (Grid.build pnts m).n_steps k)
    (h2 : ∀ k : Fin 3, (Grid.build pnts m).n_steps k < W)
    (h3 : ∀ k : Fin 3, q k < (Grid.build pnts m).max_pnt k
      ∨ (Grid.build pnts m).max_pnt k < q k
      ∨ (Grid.build pnts m).step_sizes k = 0) :
    ∀ k : Fin 3, (Grid.build pnts m).getGridCoords q k < (Grid.build pnts m).n_steps k := by
  intro k
  unfold Grid.getGridCoords
  by_cases hlo : q k < (Grid.build pnts m).min_pnt k
  · rw [if_pos hlo]
    exact h1 k
  · rw [if_neg hlo]
    by_cases hhi : (Grid.build pnts m).max_pnt k < q k
    · rw [if_pos hhi]
      rw [szSub1_eq ((Grid.build pnts m).n_steps k) (h1 k) (h2 k)]
      have := h1 k
      omega
    · rw [if_neg hhi]
      have hmnle : (Grid.build pnts m).min_pnt k ≤ q k := le_of_not_lt hlo
      have hqle : q k ≤ (Grid.build pnts m).max_pnt k := le_of_not_lt hhi
      have hnpos : (0 : ℚ) < ((Grid.build pnts m).n_steps k : ℚ) := by
        exact_mod_cast Nat.lt_of_lt_of_le Nat.zero_lt_one (h1 k)
      have hs := build_step_sizes pnts m k
      by_cases hstep : (Grid.build pnts m).step_sizes k = 0
      · have hdelta : (Grid.build pnts m).max_pnt k - (Grid.build pnts m).min_pnt k = 0 := by
          rw [hs] at hstep
          rcases div_eq_zero_iff.mp hstep with h | h
          · exact h
          · exact absurd h (ne_of_gt hnpos)
        have hq0 : q k = (Grid.build pnts m).min_pnt k := by linarith
        have hinv : (Grid.build pnts m).inverse_step_sizes k = 1 := by
          rw [build_inverse_step_sizes pnts m k, if_pos hstep]
        rw [hinv, hq0]
        simp only [sub_self, zero_mul]
        rw [toSize_zero]
        exact h1 k
      · have hqlt : q k < (Grid.build pnts m).max_pnt k := by
          rcases h3 k with h | h | h
          · exact h
          · exact absurd h hhi
          · exact absurd h hstep
        have hdpos : (0 : ℚ) < (Grid.build pnts m).max_pnt k - (Grid.build pnts m).min_pnt k := by
          rcases lt_trichotomy ((Grid.build pnts m).max_pnt k - (Grid.build pnts m).min_pnt k) 0
            with h | h | h
          · linarith
          · exact absurd (by rw [hs, h]; simp) hstep
          · exact h
        have hspos : (0 : ℚ) < (Grid.build pnts m).step_sizes k := by
          rw [hs]
          positivity
        have hinv : (Grid.build pnts m).inverse_step_sizes k
            = 1 / (Grid.build pnts m).step_sizes k := by
          rw [build_inverse_step_sizes pnts m k, if_neg hstep]
        apply toSize_lt _ _ (h1 k)
        rw [hinv]
        have heq : ((Grid.build pnts m).max_pnt k - (Grid.build pnts m).min_pnt k)
            * (1 / (Grid.build pnts m).step_sizes k) = (((Grid.build pnts m).n_steps k : ℕ) : ℚ) := by
          rw [hs]
          field_simp
        have hkey : (q k - (Grid.build pnts m).min_pnt k)
            * (1 / (Grid.build pnts m).step_sizes k)
            < ((Grid.build pnts m).max_pnt k - (Grid.build pnts m).min_pnt k)
              * (1 / (Grid.build pnts m).step_sizes k) := by
          apply mul_lt_mul_of_pos_right (by linarith)
          positivity
        linarith [heq ▸ hkey]

/-- C5 (counterexample): for the two-point grid `wPnts` with target density
1, the query coordinate that equals the inflated upper corner
`1.000001` exactly on axis 0 resolves to cell coordinate 2 on an axis with
only cells 0 and 1 — outside `[0, cell_count[0] - 1]`. -/
theorem C5_cex :
    (Grid.build wPnts 1).getGridCoords ![1000001 / 1000000, 0, 0] 0 = 2
    ∧ (Grid.build wPnts 1).n_steps 0 = 2 := by decide

/-- witness for `C5_gridCoords_range` on the grid of `wPnts` with target
density 512 and query `(1/2, 0, 0)`. -/
theorem C5_gridCoords_range_witness :
    ((∀ k : Fin 3, 1 ≤ (Grid.build wPnts 512).n_steps k)
      ∧ (∀ k : Fin 3, (Grid.build wPnts 512).n_steps k < W)
      ∧ (∀ k : Fin 3, (![1/2, 0, 0] : Fin 3 → ℚ) k < (Grid.build wPnts 512).max_pnt k
          ∨ (Grid.build wPnts 512).max_pnt k < (![1/2, 0, 0] : Fin 3 → ℚ) k
          ∨ (Grid.build wPnts 512).step_sizes k = 0))
    ∧ ∀ k : Fin 3, (Grid.build wPnts 512).getGridCoords ![1/2, 0, 0] k
        < (Grid.build wPnts 512).n_steps k :=
  ⟨⟨by decide, by decide, by decide⟩,
    C5_gridCoords_range wPnts 512 ![1/2, 0, 0] (by decide) (by decide) (by decide)⟩

/-! Ceiling division bridge for the 1d sizing formula. -/

theorem ceilToSize_div_eq (n m : ℕ) (hm : 1 ≤ m) :
    ceilToSize ((n : ℚ) / (m : ℚ)) = (n + m - 1) / m := by
  unfold ceilToSize
  have hmQ : (0 : ℚ) < (m : ℚ) := by exact_mod_cast hm
  have hdm := Nat.div_add_mod (n + m - 1) m
  have hr : (n + m - 1) % m < m := Nat.mod_lt _ (by omega)
  have h1 : n ≤ m * ((n + m - 1) / m) := by omega
  have h2 : m * ((n + m - 1) / m) < n + m := by omega
  have hceil : ⌈(n : ℚ) / (m : ℚ)⌉ = (((n + m - 1) / m : ℕ) : ℤ) := by
    rw [Int.ceil_eq_iff]
    constructor
    · rw [Int.cast_natCast, lt_div_iff hmQ]
      have h2Q : (m : ℚ) * (((n + m - 1) / m : ℕ) : ℚ) < (n : ℚ) + (m : ℚ) := by
        exact_mod_cast h2
      nlinarith [h2Q, hmQ]
    · rw [Int.cast_natCast, div_le_iff hmQ]
      have h1Q : (n : ℚ) ≤ (m : ℚ) * (((n + m - 1) / m : ℕ) : ℚ) := by
        exact_mod_cast h1
      nlinarith [h1Q]
  rw [hceil]
  exact Int.toNat_natCast _

theorem inflateMax_zero : inflateMax 0 0 = 0 := by decide

theorem abs_zero_lt_eps : |(0 : ℚ)| < eps := by decide

theorem foldl_min_ge (k : Fin 3) (c : ℚ) :
    ∀ (ps : List Pnt) (a : ℚ), c ≤ a → (∀ p ∈ ps, c ≤ p k) →
      c ≤ ps.foldl (fun x r => min x (r k)) a := by
  intro ps
  induction ps with
  | nil => intro a ha _; exact ha
  | cons r rs ih =>
    intro a ha hall
    rw [List.foldl_cons]
    exact ih (min a (r k)) (le_min ha (hall r (List.mem_cons_self r rs)))
      (fun p hp => hall p (List.mem_cons_of_mem r hp))

theorem foldl_max_le (k : Fin 3) (c : ℚ) :
    ∀ (ps : List Pnt) (a : ℚ), a ≤ c → (∀ p ∈ ps, p k ≤ c) →
      ps.foldl (fun x r => max x (r k)) a ≤ c := by
  intro ps
  induction ps with
  | nil => intro a ha _; exact ha
  | cons r rs ih =>
    intro a ha hall
    rw [List.foldl_cons]
    exact ih (max a (r k)) (max_le ha (hall r (List.mem_cons_self r rs)))
      (fun p hp => hall p (List.mem_cons_of_mem r hp))

theorem aabb_const_zero (pnts : List Pnt) (k : Fin 3) (hne : pnts ≠ [])
    (hz : ∀ p ∈ pnts, p k = 0) :
    aabbMinPnt pnts k = 0 ∧ aabbMaxPnt pnts k = 0 := by
  cases pnts with
  | nil => exact absurd rfl hne
  | cons r rs =>
    have hr : r k = 0 := (hz r (List.mem_cons_self r rs)).symm ▸ hz r (List.mem_cons_self r rs)
    constructor
    · unfold aabbMinPnt
      refine le_antisymm ?_ ?_
      · have := (foldl_min_le k rs (r k)).1
        linarith [this, hr ▸ this]
      · exact foldl_min_ge k 0 rs (r k) (by rw [hr])
          (fun p hp => by rw [hz p (List.mem_cons_of_mem r hp)])
    · unfold aabbMaxPnt
      refine le_antisymm ?_ ?_
      · exact foldl_max_le k 0 rs (r k) (by rw [hr])
          (fun p hp => by rw [hz p (List.mem_cons_of_mem r hp)])
      · have := (foldl_max_ge k rs (r k)).1
        linarith [this, hr ▸ this]

/-- the inflated extent of an axis on which every point has coordinate 0 is
exactly 0 (the inflation maps the degenerate interval `[0,0]` to itself). -/
theorem build_delta_zero_axis (pnts : List Pnt) (m : ℕ) (k : Fin 3)
    (hne : pnts ≠ []) (hz : ∀ p ∈ pnts, p k = 0) :
    (Grid.build pnts m).max_pnt k - (Grid.build pnts m).min_pnt k = 0
    ∧ (Grid.build pnts m).min_pnt k = 0 := by
  obtain ⟨hmn, hmx⟩ := aabb_const_zero pnts k hne hz
  have hmax : (Grid.build pnts m).max_pnt k = 0 := by
    rw [build_max_pnt]
    show inflateMax (aabbMinPnt pnts k) (aabbMaxPnt pnts k) = 0
    rw [hmn, hmx]
    exact inflateMax_zero
  have hmin : (Grid.build pnts m).min_pnt k = 0 := by
    rw [build_min_pnt]
    exact hmn
  rw [hmax, hmin]
  exact ⟨by ring, rfl⟩

/-- C6 (amended): when the constant coordinates of a collinear point
collection are exactly zero on the two degenerate axes (so that the
inflated extents stay below machine epsilon there), the cell counts are
`ceil(n_points / target_density)` on the varying axis and 1 on the other
two; for the axis-1 and axis-2 variants the varying axis must additionally
have inflated extent at least machine epsilon (otherwise the earlier 1d
branch fires).  The unamended claim fails when the constant coordinates are
nonzero: the inflation then produces a nonzero extent at least epsilon and
the 2d sizing branch is taken (see `C6_cex`). -/
theorem C6_collinear_cell_counts (pnts : List Pnt) (m : ℕ) (hne : pnts ≠ [])
    (hm : 1 ≤ m) :
    ((∀ p ∈ pnts, p 1 = 0 ∧ p 2 = 0) →
      (Grid.build pnts m).n_steps 0 = (pnts.length + m - 1) / m
      ∧ (Grid.build pnts m).n_steps 1 = 1
      ∧ (Grid.build pnts m).n_steps 2 = 1)
    ∧ ((∀ p ∈ pnts, p 0 = 0 ∧ p 2 = 0) →
      ¬ |(Grid.build pnts m).max_pnt 1 - (Grid.build pnts m).min_pnt 1| < eps →
      (Grid.build pnts m).n_steps 0 = 1
      ∧ (Grid.build pnts m).n_steps 1 = (pnts.length + m - 1) / m
      ∧ (Grid.build pnts m).n_steps 2 = 1)
    ∧ ((∀ p ∈ pnts, p 0 = 0 ∧ p 1 = 0) →
      ¬ |(Grid.build pnts m).max_pnt 2 - (Grid.build pnts m).min_pnt 2| < eps →
      (Grid.build pnts m).n_steps 0 = 1
      ∧ (Grid.build pnts m).n_steps 1 = 1
      ∧ (Grid.build pnts m).n_steps 2 = (pnts.length + m - 1) / m) := by
  have hns : (Grid.build pnts m).n_steps = computeNSteps pnts.length m
      (fun k => (Grid.build pnts m).max_pnt k - (Grid.build pnts m).min_pnt k) :=
    build_n_steps pnts m
  refine ⟨?_, ?_, ?_⟩
  · intro hz
    have e1 : |(Grid.build pnts m).max_pnt 1 - (Grid.build pnts m).min_pnt 1| < eps := by
      rw [(build_delta_zero_axis pnts m 1 hne (fun p hp => (hz p hp).1)).1]
      exact abs_zero_lt_eps
    have e2 : |(Grid.build pnts m).max_pnt 2 - (Grid.build pnts m).min_pnt 2| < eps := by
      rw [(build_delta_zero_axis pnts m 2 hne (fun p hp => (hz p hp).2)).1]
      exact abs_zero_lt_eps
    rw [hns]
    unfold computeNSteps
    rw [if_pos (Or.inl e1), if_pos ⟨e1, e2⟩, ceilToSize_div_eq pnts.length m hm]
    exact ⟨rfl, rfl, rfl⟩
  · intro hz hd1
    have e0 : |(Grid.build pnts m).max_pnt 0 - (Grid.build pnts m).min_pnt 0| < eps := by
      rw [(build_delta_zero_axis pnts m 0 hne (fun p hp => (hz p hp).1)).1]
      exact abs_zero_lt_eps
    have e2 : |(Grid.build pnts m).max_pnt 2 - (Grid.build pnts m).min_pnt 2| < eps := by
      rw [(build_delta_zero_axis pnts m 2 hne (fun p hp => (hz p hp).2)).1]
      exact abs_zero_lt_eps
    rw [hns]
    unfold computeNSteps
    rw [if_pos (Or.inr e2), if_neg (fun hc => hd1 hc.1), if_pos ⟨e0, e2⟩,
      ceilToSize_div_eq pnts.length m hm]
    exact ⟨rfl, rfl, rfl⟩
  · intro hz hd2
    have e0 : |(Grid.build pnts m).max_pnt 0 - (Grid.build pnts m).min_pnt 0| < eps := by
      rw [(build_delta_zero_axis pnts m 0 hne (fun p hp => (hz p hp).1)).1]
      exact abs_zero_lt_eps
    have e1 : |(Grid.build pnts m).max_pnt 1 - (Grid.build pnts m).min_pnt 1| < eps := by
      rw [(build_delta_zero_axis pnts m 1 hne (fun p hp => (hz p hp).2)).1]
      exact abs_zero_lt_eps
    rw [hns]
    unfold computeNSteps
    rw [if_pos (Or.inl e1), if_neg (fun hc => hd2 hc.2), if_neg (fun hc => hd2 hc.2),
      if_pos ⟨e0, e1⟩, ceilToSize_div_eq pnts.length m hm]
    exact ⟨rfl, rfl, rfl⟩

/-- the counterexample collection for C6: collinear along axis 0, with the
constant coordinates `y = 5`, `z = 0`. -/
def pC6 : List Pnt := [![0, 5, 0], ![1, 5, 0]]

set_option maxRecDepth 8000 in
/-- C6 (counterexample): for `pC6` with target density 1 the claim predicts
`cell_count = [ceil(2/1), 1, 1] = [2, 1, 1]`, but the inflated extent of
axis 1 is `5e-6`, which is not below machine epsilon, so the 2d sizing
branch fires and produces `cell_count = [633, 1, 1]`. -/
theorem C6_cex :
    (∀ p ∈ pC6, p 1 = 5 ∧ p 2 = 0)
    ∧ ¬ (Grid.build pC6 1).n_steps 0 = (pC6.length + 1 - 1) / 1
    ∧ (Grid.build pC6 1).n_steps 0 = 633
    ∧ (Grid.build pC6 1).n_steps 1 = 1
    ∧ (Grid.build pC6 1).n_steps 2 = 1 := by decide

/-- witness for `C6_collinear_cell_counts` at `wPnts` (collinear along
axis 0, zero on the other axes), target density 512. -/
theorem C6_collinear_cell_counts_witness :
    (wPnts ≠ [] ∧ (1 : ℕ) ≤ 512 ∧ (∀ p ∈ wPnts, p 1 = 0 ∧ p 2 = 0))
    ∧ ((Grid.build wPnts 512).n_steps 0 = (wPnts.length + 512 - 1) / 512
      ∧ (Grid.build wPnts 512).n_steps 1 = 1
      ∧ (Grid.build wPnts 512).n_steps 2 = 1) :=
  ⟨⟨by decide, by decide, by decide⟩,
    (C6_collinear_cell_counts wPnts 512 (by decide) (by decide)).1 (by decide)⟩

/-! Cell border distances. -/

/-- the six perpendicular (signed) distances from a query point to the six
bounding planes of the cell `coords`, as the claim describes them: the
bottom plane lies at `min_corner[2] + coords[2]*step[2]` and the top plane
one step higher, analogously on the other axes; face order as in the
source comment (bottom, front, right, back, left, top). -/
def specBorderDists (g : Grid) (pnt : Fin 3 → ℚ) (c : Fin 3 → ℕ) : Fin 6 → ℚ :=
  let zlo := g.min_pnt 2 + (c 2 : ℚ) * g.step_sizes 2
  let ylo := g.min_pnt 1 + (c 1 : ℚ) * g.step_sizes 1
  let xlo := g.min_pnt 0 + (c 0 : ℚ) * g.step_sizes 0
  ![pnt 2 - zlo, pnt 1 - ylo, (xlo + g.step_sizes 0) - pnt 0,
    (ylo + g.step_sizes 1) - pnt 1, pnt 0 - xlo, (zlo + g.step_sizes 2) - pnt 2]

/-- C8 (amended): `getPointCellBorderDistances` adds the cell offset terms
`coords[k] * step_sizes[k]` with the wrong sign, so the six returned values
equal the perpendicular plane distances of the claim only up to an error of
`± 2 * coords[k] * step_sizes[k]` per face; in particular they agree with
the claim exactly when `coords = (0,0,0)`. -/
theorem borderDists_components (g : Grid) (pnt : Fin 3 → ℚ) (c : Fin 3 → ℕ) :
    g.getPointCellBorderDistances pnt c 0
        = specBorderDists g pnt c 0 + 2 * (c 2 : ℚ) * g.step_sizes 2
    ∧ g.getPointCellBorderDistances pnt c 1
        = specBorderDists g pnt c 1 + 2 * (c 1 : ℚ) * g.step_sizes 1
    ∧ g.getPointCellBorderDistances pnt c 2
        = specBorderDists g pnt c 2 - 2 * (c 0 : ℚ) * g.step_sizes 0
    ∧ g.getPointCellBorderDistances pnt c 3
        = specBorderDists g pnt c 3 - 2 * (c 1 : ℚ) * g.step_sizes 1
    ∧ g.getPointCellBorderDistances pnt c 4
        = specBorderDists g pnt c 4 + 2 * (c 0 : ℚ) * g.step_sizes 0
    ∧ g.getPointCellBorderDistances pnt c 5
        = specBorderDists g pnt c 5 - 2 * (c 2 : ℚ) * g.step_sizes 2 := by
  refine ⟨?_, ?_, ?_, ?_, ?_, ?_⟩
  · show pnt 2 - g.min_pnt 2 + (c 2 : ℚ) * g.step_sizes 2
      = (pnt 2 - (g.min_pnt 2 + (c 2 : ℚ) * g.step_sizes 2))
        + 2 * (c 2 : ℚ) * g.step_sizes 2
    ring
  · show pnt 1 - g.min_pnt 1 + (c 1 : ℚ) * g.step_sizes 1
      = (pnt 1 - (g.min_pnt 1 + (c 1 : ℚ) * g.step_sizes 1))
        + 2 * (c 1 : ℚ) * g.step_sizes 1
    ring
  · show g.step_sizes 0 - (pnt 0 - g.min_pnt 0 + (c 0 : ℚ) * g.step_sizes 0)
      = (((g.min_pnt 0 + (c 0 : ℚ) * g.step_sizes 0) + g.step_sizes 0) - pnt 0)
        - 2 * (c 0 : ℚ) * g.step_sizes 0
    ring
  · show g.step_sizes 1 - (pnt 1 - g.min_pnt 1 + (c 1 : ℚ) * g.step_sizes 1)
      = (((g.min_pnt 1 + (c 1 : ℚ) * g.step_sizes 1) + g.step_sizes 1) - pnt 1)
        - 2 * (c 1 : ℚ) * g.step_sizes 1
    ring
  · show pnt 0 - g.min_pnt 0 + (c 0 : ℚ) * g.step_sizes 0
      = (pnt 0 - (g.min_pnt 0 + (c 0 : ℚ) * g.step_sizes 0))
        + 2 * (c 0 : ℚ) * g.step_sizes 0
    ring
  · show g.step_sizes 2 - (pnt 2 - g.min_pnt 2 + (c 2 : ℚ) * g.step_sizes 2)
      = (((g.min_pnt 2 + (c 2 : ℚ) * g.step_sizes 2) + g.step_sizes 2) - pnt 2)
        - 2 * (c 2 : ℚ) * g.step_sizes 2
    ring

/-- C8 (amended): `getPointCellBorderDistances` adds the cell offset terms
`coords[k] * step_sizes[k]` with the wrong sign, so the six returned values
equal the perpendicular plane distances of the claim only up to an error of
`± 2 * coords[k] * step_sizes[k]` per face; in particular they agree with
the claim exactly when `coords = (0,0,0)`. -/
theorem C8_border_dists (g : Grid) (pnt : Fin 3 → ℚ) (c : Fin 3 → ℕ) :
    (g.getPointCellBorderDistances pnt c 0
        = specBorderDists g pnt c 0 + 2 * (c 2 : ℚ) * g.step_sizes 2
      ∧ g.getPointCellBorderDistances pnt c 1
        = specBorderDists g pnt c 1 + 2 * (c 1 : ℚ) * g.step_sizes 1
      ∧ g.getPointCellBorderDistances pnt c 2
        = specBorderDists g pnt c 2 - 2 * (c 0 : ℚ) * g.step_sizes 0
      ∧ g.getPointCellBorderDistances pnt c 3
        = specBorderDists g pnt c 3 - 2 * (c 1 : ℚ) * g.step_sizes 1
      ∧ g.getPointCellBorderDistances pnt c 4
        = specBorderDists g pnt c 4 + 2 * (c 0 : ℚ) * g.step_sizes 0
      ∧ g.getPointCellBorderDistances pnt c 5
        = specBorderDists g pnt c 5 - 2 * (c 2 : ℚ) * g.step_sizes 2)
    ∧ ∀ i : Fin 6, g.getPointCellBorderDistances pnt (fun _ => 0) i
        = specBorderDists g pnt (fun _ => 0) i := by
  refine ⟨borderDists_components g pnt c, ?_⟩
  intro i
  obtain ⟨e0, e1, e2, e3, e4, e5⟩ := borderDists_components g pnt (fun _ => 0)
  fin_cases i
  · show g.getPointCellBorderDistances pnt (fun _ => 0) 0
        = specBorderDists g pnt (fun _ => 0) 0
    rw [e0]; norm_num
  · show g.getPointCellBorderDistances pnt (fun _ => 0) 1
        = specBorderDists g pnt (fun _ => 0) 1
    rw [e1]; norm_num
  · show g.getPointCellBorderDistances pnt (fun _ => 0) 2
        = specBorderDists g pnt (fun _ => 0) 2
    rw [e2]; norm_num
  · show g.getPointCellBorderDistances pnt (fun _ => 0) 3
        = specBorderDists g pnt (fun _ => 0) 3
    rw [e3]; norm_num
  · show g.getPointCellBorderDistances pnt (fun _ => 0) 4
        = specBorderDists g pnt (fun _ => 0) 4
    rw [e4]; norm_num
  · show g.getPointCellBorderDistances pnt (fun _ => 0) 5
        = specBorderDists g pnt (fun _ => 0) 5
    rw [e5]; norm_num

/-- the counterexample grid data for C8: two points on the z axis. -/
def pC8 : List Pnt := [![0, 0, 1], ![0, 0, 2]]

/-- C8 (counterexample): on the grid of `pC8` (cell counts `[1,1,2]`), for
the in-bounds cell `(0,0,1)` and the query `(0,0,1.9)` inside that cell,
the returned bottom value is `1.400001`, which is neither the claimed
perpendicular distance `0.399999` to the bottom plane at `z = 1.5000005`
nor its negation. -/
theorem C8_cex :
    1 < (Grid.build pC8 1).n_steps 2
    ∧ (Grid.build pC8 1).getPointCellBorderDistances ![0, 0, 19/10] ![0, 0, 1] 0
        ≠ (![0, 0, 19/10] : Fin 3 → ℚ) 2
          - ((Grid.build pC8 1).min_pnt 2 + ((1 : ℕ) : ℚ) * (Grid.build pC8 1).step_sizes 2)
    ∧ (Grid.build pC8 1).getPointCellBorderDistances ![0, 0, 19/10] ![0, 0, 1] 0
        ≠ -((![0, 0, 19/10] : Fin 3 → ℚ) 2
          - ((Grid.build pC8 1).min_pnt 2 + ((1 : ℕ) : ℚ) * (Grid.build pC8 1).step_sizes 2)) := by
  refine ⟨by decide, by decide, by decide⟩

/-- C7: on the failing input `[pntA, pntB]` (density 1) the computed axis-1
cell coordinate of `pntB` is out of range (`333333 ≥ _n_steps[1] = 1`, the
condition of Grid.h line 267), yet construction completes without any fatal
error and the point is stored at flattened bucket index 666667, past the
end of the 2-bucket allocation — in the C++ an out-of-bounds write. -/
theorem C7_out_of_range_store :
    (Grid.build [pntA, pntB] 1).n_steps 1 ≤ (Grid.build [pntA, pntB] 1).pntCoord pntB 1
    ∧ (Grid.build [pntA, pntB] 1).pntCoord pntB 1 = 333333
    ∧ (Grid.build [pntA, pntB] 1).pntFlat pntB = 666667
    ∧ (Grid.build [pntA, pntB] 1).totalCells = 2
    ∧ (Grid.build [pntA, pntB] 1).grid_quad_to_node_map 666667 = [pntB] := by decide

/-! Non-termination of the expanding ring search: the `size_t` loop bounds
`coords[k] - offset` underflow, so on any axis whose origin cell coordinate
is 0 the value 0 is never scanned again; in particular on a grid with
`_n_steps[2] = 1` and a query cell with `coords[2] = 0` no valid cell
triple is ever visited and the `while (nearest_pnt == NULL)` loop runs
forever. -/

theorem szRange_zero_ge_one (o : ℕ) :
    ∀ t ∈ szRange (szSub 0 o) (szAdd 0 o), 1 ≤ t := by
  intro t ht
  unfold szRange szSub szAdd W at ht
  rcases List.mem_range'_1.mp ht with ⟨hle, hlt⟩
  omega

theorem foldl_id {α β : Type} (f : β → α → β) :
    ∀ (l : List α) (b : β), (∀ x ∈ l, ∀ a, f a x = a) → l.foldl f b = b := by
  intro l
  induction l with
  | nil => intro b _; rfl
  | cons x xs ih =>
    intro b h
    rw [List.foldl_cons, h x (List.mem_cons_self x xs) b]
    exact ih b (fun y hy a => h y (List.mem_cons_of_mem x hy) a)

theorem ringPass_noop (g : Grid) (pnt : Fin 3 → ℚ) (c : Fin 3 → ℕ)
    (hc2 : c 2 = 0) (hn2 : g.n_steps 2 = 1) (o : ℕ) (st : ℚ × Option Pnt) :
    g.ringPass pnt c o st = st := by
  unfold Grid.ringPass
  apply foldl_id
  intro t0 _ st0
  apply foldl_id
  intro t1 _ st1
  apply foldl_id
  intro t2 ht2 st2
  have h1le : 1 ≤ t2 := by
    rw [hc2] at ht2
    exact szRange_zero_ge_one o t2 ht2
  by_cases hskip : t0 = c 0 ∧ t1 = c 1 ∧ t2 = c 2
  · rw [if_pos hskip]
  · rw [if_neg hskip, if_neg]
    intro hvalid
    rw [hn2] at hvalid
    omega

theorem ringLoop_none (g : Grid) (pnt : Fin 3 → ℚ) (c : Fin 3 → ℕ)
    (hc2 : c 2 = 0) (hn2 : g.n_steps 2 = 1) :
    ∀ (fuel o : ℕ) (s : ℚ), g.ringLoop pnt c fuel o s = none := by
  intro fuel
  induction fuel with
  | zero => intro o s; rfl
  | succ f ih =>
    intro o s
    show (match g.ringPass pnt c o (s, none) with
      | (s', some p) => some (p, s')
      | (s', none) => g.ringLoop pnt c f (o + 1) s') = none
    rw [ringPass_noop g pnt c hc2 hn2 o (s, none)]
    exact ih (o + 1) s

theorem getNearestPoint_none (g : Grid) (pnt : Fin 3 → ℚ)
    (hcalc : g.calcNearestPointInGridCell pnt (g.getGridCoords pnt) = none)
    (hc2 : g.getGridCoords pnt 2 = 0) (hn2 : g.n_steps 2 = 1) :
    ∀ fuel, g.getNearestPoint pnt fuel = none := by
  intro fuel
  show (match g.calcNearestPointInGridCell pnt (g.getGridCoords pnt) with
    | some (np, s) =>
      if sqrtLE s (g.getPointCellBorderDistances pnt (g.getGridCoords pnt) 0)
          ∧ sqrtLE s (g.getPointCellBorderDistances pnt (g.getGridCoords pnt) 1)
          ∧ sqrtLE s (g.getPointCellBorderDistances pnt (g.getGridCoords pnt) 2)
          ∧ sqrtLE s (g.getPointCellBorderDistances pnt (g.getGridCoords pnt) 3)
          ∧ sqrtLE s (g.getPointCellBorderDistances pnt (g.getGridCoords pnt) 4)
          ∧ sqrtLE s (g.getPointCellBorderDistances pnt (g.getGridCoords pnt) 5) then
        some np
      else
        some (g.finalize pnt np s)
    | none =>
      match g.ringLoop pnt (g.getGridCoords pnt) fuel 1 (sqrDist g.min_pnt g.max_pnt) with
      | some (np, s) => some (g.finalize pnt np s)
      | none => none) = none
  rw [hcalc, ringLoop_none g pnt (g.getGridCoords pnt) hc2 hn2 fuel 1]

/-- the failing input of claim C2: three points on an inflated 2x2x1 grid
whose cell `(0,0,0)` is empty. -/
def pC2 : List Pnt := [![0, 1, 0], ![1, 0, 0], ![1, 1, 0]]

/-- C2 (non-termination): on the grid of `pC2` (cell counts `[2,2,1]`,
bucket of cell `(0,0,0)` empty) the query `(-1,-1,0)` resolves to cell
`(0,0,0)`; the ring search loop bound `coords[2] - offset` underflows, cell
coordinate 0 on axis 2 is never scanned, no candidate is ever found, and
the loop never terminates: the model returns `none` for every fuel. -/
theorem C2_ring_search_never_terminates :
    ∀ fuel : ℕ, (Grid.build pC2 1).getNearestPoint ![-1, -1, 0] fuel = none :=
  getNearestPoint_none (Grid.build pC2 1) ![-1, -1, 0]
    (by decide) (by decide) (by decide)

/-- the input showing claim C1 false as stated: two points on a 2x2x1 grid
with empty cell `(0,0,0)`. -/
def pC1 : List Pnt := [![0, 1, 0], ![1, 0, 0]]

/-- C1 (counterexample): `getNearestPoint` does not return a point of
minimum distance for every non-empty grid and query — on the grid of `pC1`
with query `(-1/2, -1/2, 0)` it returns nothing at all (the ring search
loops forever; model: `none` for every fuel), although the grid is
non-empty. -/
theorem C1_cex_no_result :
    pC1 ≠ [] ∧ ∀ fuel : ℕ,
      (Grid.build pC1 1).getNearestPoint ![-1/2, -1/2, 0] fuel = none :=
  ⟨by decide, getNearestPoint_none (Grid.build pC1 1) ![-1/2, -1/2, 0]
    (by decide) (by decide) (by decide)⟩

/-! Exactness lemmas for the encoded square root floors. -/

theorem ratFloor_eq_intFloor (q : ℚ) : (Rat.floor q : ℤ) = ⌊q⌋ := rfl

theorem toSize_mono (x y : ℚ) (h : x ≤ y) : toSize x ≤ toSize y := by
  unfold toSize
  have := Int.floor_mono h
  omega

theorem sq_le_sq_of_nonneg (a b : ℚ) (ha : 0 ≤ a) (hab : a ≤ b) : a ^ 2 ≤ b ^ 2 := by
  nlinarith

theorem sq_lt_sq_of_nonneg (a b : ℚ) (ha : 0 ≤ a) (hab : a < b) : a ^ 2 < b ^ 2 := by
  nlinarith

theorem searchLeast_self_prop (p : ℕ → Prop) [DecidablePred p] (fuel : ℕ)
    (h : p fuel) : p (searchLeast (fun m => decide (p m)) fuel 0) := by
  have h0 : (fun m => decide (p m)) (0 + fuel) = true := by
    rw [Nat.zero_add]
    exact decide_eq_true h
  exact of_decide_eq_true (searchLeast_found (fun m => decide (p m)) fuel 0 h0)

theorem searchLeast_min_prop (p : ℕ → Prop) [DecidablePred p] (fuel j : ℕ)
    (hj : j < searchLeast (fun m => decide (p m)) fuel 0) : ¬ p j :=
  of_decide_eq_false (searchLeast_min (fun m => decide (p m)) fuel 0 j (Nat.zero_le j) hj)

theorem ratFloor_le_self (t : ℚ) : ((Rat.floor t : ℤ) : ℚ) ≤ t := by
  rw [ratFloor_eq_intFloor]
  exact Int.floor_le t

theorem lt_ratFloor_add_one (t : ℚ) : t < ((Rat.floor t : ℤ) : ℚ) + 1 := by
  rw [ratFloor_eq_intFloor]
  exact Int.lt_floor_add_one t

theorem floorSubSqrt_le_self (t u : ℚ) : ((floorSubSqrt t u : ℤ) : ℚ) ≤ t := by
  unfold floorSubSqrt
  push_cast
  have hfl := ratFloor_le_self t
  have hm : (0 : ℚ) ≤ ((searchLeast
      (fun m => decide (u ≤ (t - (Rat.floor t : ℚ) + (m : ℚ)) ^ 2))
      (ceilSqrt u + 1) 0 : ℕ) : ℚ) := Nat.cast_nonneg _
  push_cast at hfl
  linarith

theorem floorSubSqrt_sq (t u : ℚ) (hu : 0 ≤ u) :
    u ≤ (t - ((floorSubSqrt t u : ℤ) : ℚ)) ^ 2 := by
  have hP : (fun m => u ≤ (t - (Rat.floor t : ℚ) + (m : ℚ)) ^ 2)
      (searchLeast (fun m => decide ((fun m' => u ≤ (t - (Rat.floor t : ℚ) + (m' : ℚ)) ^ 2) m))
        (ceilSqrt u + 1) 0) := by
    apply searchLeast_self_prop (fun m => u ≤ (t - (Rat.floor t : ℚ) + (m : ℚ)) ^ 2)
    have hfl := ratFloor_le_self t
    have hc := ceilSqrt_spec u
    have h1 : ((ceilSqrt u : ℕ) : ℚ) ≤ t - (Rat.floor t : ℚ) + ((ceilSqrt u + 1 : ℕ) : ℚ) := by
      push_cast
      push_cast at hfl
      linarith
    exact hc.trans (sq_le_sq_of_nonneg _ _ (Nat.cast_nonneg _) h1)
  have e : t - ((floorSubSqrt t u : ℤ) : ℚ)
      = t - (Rat.floor t : ℚ) + ((searchLeast
          (fun m => decide (u ≤ (t - (Rat.floor t : ℚ) + (m : ℚ)) ^ 2))
          (ceilSqrt u + 1) 0 : ℕ) : ℚ) := by
    unfold floorSubSqrt
    push_cast
    ring
  rw [e]
  exact hP

theorem floorSubSqrt_le_floor (t u tp : ℚ) (hu : 0 ≤ u)
    (hdiff : t - tp < 0 ∨ (0 ≤ t - tp ∧ (t - tp) ^ 2 < u)) :
    floorSubSqrt t u ≤ ⌊tp⌋ := by
  by_contra hcon
  have hlt : ⌊tp⌋ < floorSubSqrt t u := lt_of_not_ge hcon
  have htp : tp < ((floorSubSqrt t u : ℤ) : ℚ) := by
    have h2 : tp < ((⌊tp⌋ : ℤ) : ℚ) + 1 := Int.lt_floor_add_one tp
    have h3 : ((⌊tp⌋ : ℤ) : ℚ) + 1 ≤ ((floorSubSqrt t u : ℤ) : ℚ) := by
      exact_mod_cast hlt
    linarith
  have h1 := floorSubSqrt_le_self t u
  have h2 := floorSubSqrt_sq t u hu
  rcases hdiff with h | ⟨hge, hsq⟩
  · linarith
  · have ha : (0 : ℚ) ≤ t - ((floorSubSqrt t u : ℤ) : ℚ) := by linarith
    have hb : t - ((floorSubSqrt t u : ℤ) : ℚ) < t - tp := by linarith
    have := sq_lt_sq_of_nonneg _ _ ha hb
    linarith

theorem floorAddSqrt_lt_self (t u : ℚ) (hu : 0 ≤ u) :
    u < (((floorAddSqrt t u : ℤ) : ℚ) + 1 - t) ^ 2
    ∧ t < ((floorAddSqrt t u : ℤ) : ℚ) + 1 := by
  have hP : (fun m => u < ((Rat.floor t : ℚ) + (m : ℚ) + 1 - t) ^ 2)
      (searchLeast (fun m => decide ((fun m' => u < ((Rat.floor t : ℚ) + (m' : ℚ) + 1 - t) ^ 2) m))
        (ceilSqrt u + 1) 0) := by
    apply searchLeast_self_prop (fun m => u < ((Rat.floor t : ℚ) + (m : ℚ) + 1 - t) ^ 2)
    have hfl := lt_ratFloor_add_one t
    have hc := ceilSqrt_spec u
    have h1 : ((ceilSqrt u : ℕ) : ℚ)
        < (Rat.floor t : ℚ) + ((ceilSqrt u + 1 : ℕ) : ℚ) + 1 - t := by
      push_cast
      push_cast at hfl
      linarith
    have h2 := sq_lt_sq_of_nonneg _ _ (Nat.cast_nonneg (ceilSqrt u)) h1
    linarith [hc, h2]
  constructor
  · have e : ((floorAddSqrt t u : ℤ) : ℚ) + 1 - t
        = (Rat.floor t : ℚ) + ((searchLeast
            (fun m => decide (u < ((Rat.floor t : ℚ) + (m : ℚ) + 1 - t) ^ 2))
            (ceilSqrt u + 1) 0 : ℕ) : ℚ) + 1 - t := by
      unfold floorAddSqrt
      push_cast
      ring
    rw [e]
    exact hP
  · have hfl := lt_ratFloor_add_one t
    have hm : (0 : ℚ) ≤ ((searchLeast
        (fun m => decide (u < ((Rat.floor t : ℚ) + (m : ℚ) + 1 - t) ^ 2))
        (ceilSqrt u + 1) 0 : ℕ) : ℚ) := Nat.cast_nonneg _
    unfold floorAddSqrt
    push_cast
    push_cast at hfl
    linarith

theorem floor_le_floorAddSqrt (t u tp : ℚ) (hu : 0 ≤ u)
    (hdiff : tp - t < 0 ∨ (0 ≤ tp - t ∧ (tp - t) ^ 2 < u)) :
    ⌊tp⌋ ≤ floorAddSqrt t u := by
  by_contra hcon
  have hlt : floorAddSqrt t u < ⌊tp⌋ := lt_of_not_ge hcon
  have htp : ((floorAddSqrt t u : ℤ) : ℚ) + 1 ≤ tp := by
    have h2 : ((⌊tp⌋ : ℤ) : ℚ) ≤ tp := Int.floor_le tp
    have h3 : ((floorAddSqrt t u : ℤ) : ℚ) + 1 ≤ ((⌊tp⌋ : ℤ) : ℚ) := by
      exact_mod_cast hlt
    linarith
  obtain ⟨hsq, hgt⟩ := floorAddSqrt_lt_self t u hu
  rcases hdiff with h | ⟨hge, hsqlt⟩
  · linarith
  · have ha : (0 : ℚ) ≤ ((floorAddSqrt t u : ℤ) : ℚ) + 1 - t := by linarith
    have hb : ((floorAddSqrt t u : ℤ) : ℚ) + 1 - t ≤ tp - t := by linarith
    have := sq_le_sq_of_nonneg _ _ ha hb
    linarith

/-! Consistency hypotheses for a constructed grid and per-axis coordinate
bounds. -/

/-- consistency of a constructed grid: cell counts at least 1 and within the
`size_t` range, bucket count within the `size_t` range, every point weakly
inside the inflated upper corner (with equality only on fully degenerate
axes), and ordered corners.  These are the properties the construction is
designed to guarantee via boundary inflation; `C3_cex`/`C7` show inputs on
which the C++ itself violates them. -/
def buildOK (pnts : List Pnt) (m : ℕ) : Prop :=
  (∀ k : Fin 3, 1 ≤ (Grid.build pnts m).n_steps k)
  ∧ (∀ k : Fin 3, (Grid.build pnts m).n_steps k + 1 < W)
  ∧ (Grid.build pnts m).totalCells ≤ W
  ∧ (∀ p ∈ pnts, ∀ k : Fin 3, p k ≤ (Grid.build pnts m).max_pnt k
      ∧ (p k = (Grid.build pnts m).max_pnt k →
          (Grid.build pnts m).min_pnt k = (Grid.build pnts m).max_pnt k))
  ∧ (∀ k : Fin 3, (Grid.build pnts m).min_pnt k ≤ (Grid.build pnts m).max_pnt k)

theorem step_nonneg (pnts : List Pnt) (m : ℕ) (hok : buildOK pnts m) (k : Fin 3) :
    0 ≤ (Grid.build pnts m).step_sizes k := by
  rw [build_step_sizes]
  have h5 := hok.2.2.2.2 k
  have h1 := hok.1 k
  have : (0 : ℚ) ≤ ((Grid.build pnts m).n_steps k : ℚ) := Nat.cast_nonneg _
  apply div_nonneg (by linarith) this

theorem inv_pos (pnts : List Pnt) (m : ℕ) (hok : buildOK pnts m) (k : Fin 3) :
    0 < (Grid.build pnts m).inverse_step_sizes k := by
  rw [build_inverse_step_sizes]
  by_cases hstep : (Grid.build pnts m).step_sizes k = 0
  · rw [if_pos hstep]
    norm_num
  · rw [if_neg hstep]
    have := step_nonneg pnts m hok k
    have hpos : 0 < (Grid.build pnts m).step_sizes k := lt_of_le_of_ne this (Ne.symm hstep)
    positivity

theorem min_le_mem (pnts : List Pnt) (m : ℕ) (p : Pnt) (hp : p ∈ pnts) (k : Fin 3) :
    (Grid.build pnts m).min_pnt k ≤ p k := by
  rw [build_min_pnt]
  exact aabbMin_le pnts k p hp

/-- when the step size vanishes on an axis (under `buildOK`), the inflated
extent is 0 there. -/
theorem delta_zero_of_step_zero (pnts : List Pnt) (m : ℕ) (hok : buildOK pnts m)
    (k : Fin 3) (hstep : (Grid.build pnts m).step_sizes k = 0) :
    (Grid.build pnts m).max_pnt k = (Grid.build pnts m).min_pnt k := by
  have hs := build_step_sizes pnts m k
  rw [hs] at hstep
  have h1 := hok.1 k
  have hnz : (((Grid.build pnts m).n_steps k : ℕ) : ℚ) ≠ 0 := by positivity
  rcases div_eq_zero_iff.mp hstep with h | h
  · linarith
  · exact absurd h hnz

/-- the product of the inflated extent with the inverse step size is the
cell count, unless the axis is fully degenerate. -/
theorem delta_mul_inv (pnts : List Pnt) (m : ℕ) (hok : buildOK pnts m) (k : Fin 3)
    (hstep : (Grid.build pnts m).step_sizes k ≠ 0) :
    ((Grid.build pnts m).max_pnt k - (Grid.build pnts m).min_pnt k)
      * (Grid.build pnts m).inverse_step_sizes k
      = (((Grid.build pnts m).n_steps k : ℕ) : ℚ) := by
  have hs := build_step_sizes pnts m k
  have hi := build_inverse_step_sizes pnts m k
  rw [hi, if_neg hstep, hs]
  have h1 := hok.1 k
  have hnz : (((Grid.build pnts m).n_steps k : ℕ) : ℚ) ≠ 0 := by positivity
  have hdnz : (Grid.build pnts m).max_pnt k - (Grid.build pnts m).min_pnt k ≠ 0 := by
    intro hc
    apply hstep
    rw [hs, hc]
    simp
  field_simp

/-- under `buildOK` every stored point has in-range cell coordinates. -/
theorem pntCoord_lt_n (pnts : List Pnt) (m : ℕ) (hok : buildOK pnts m)
    (p : Pnt) (hp : p ∈ pnts) (k : Fin 3) :
    (Grid.build pnts m).pntCoord p k < (Grid.build pnts m).n_steps k := by
  obtain ⟨hle, heq⟩ := hok.2.2.2.1 p hp k
  have hmn := min_le_mem pnts m p hp k
  have hinv := inv_pos pnts m hok k
  unfold Grid.pntCoord
  rcases eq_or_lt_of_le hle with hmax | hlt
  · have hdeg := heq hmax
    rw [hmax, show (Grid.build pnts m).max_pnt k - (Grid.build pnts m).min_pnt k = 0 from by
      rw [hdeg]; ring]
    rw [zero_mul, toSize_zero]
    exact hok.1 k
  · by_cases hstep : (Grid.build pnts m).step_sizes k = 0
    · exfalso
      have := delta_zero_of_step_zero pnts m hok k hstep
      linarith
    · apply toSize_lt _ _ (hok.1 k)
      rw [← delta_mul_inv pnts m hok k hstep]
      apply mul_lt_mul_of_pos_right _ hinv
      linarith

/-- gridCoords never exceeds the cell count (under `buildOK`). -/
theorem gridCoords_le_n (pnts : List Pnt) (m : ℕ) (hok : buildOK pnts m)
    (x : Fin 3 → ℚ) (k : Fin 3) :
    (Grid.build pnts m).getGridCoords x k ≤ (Grid.build pnts m).n_steps k := by
  unfold Grid.getGridCoords
  by_cases hlo : x k < (Grid.build pnts m).min_pnt k
  · rw [if_pos hlo]
    exact Nat.zero_le _
  · rw [if_neg hlo]
    by_cases hhi : (Grid.build pnts m).max_pnt k < x k
    · rw [if_pos hhi, szSub1_eq _ (hok.1 k) (by have := hok.2.1 k; omega)]
      omega
    · rw [if_neg hhi]
      have hmn : (Grid.build pnts m).min_pnt k ≤ x k := le_of_not_lt hlo
      have hmx : x k ≤ (Grid.build pnts m).max_pnt k := le_of_not_lt hhi
      have hinv := inv_pos pnts m hok k
      by_cases hstep : (Grid.build pnts m).step_sizes k = 0
      · have hdeg := delta_zero_of_step_zero pnts m hok k hstep
        have : x k = (Grid.build pnts m).min_pnt k := by linarith
        rw [this, sub_self, zero_mul, toSize_zero]
        exact Nat.zero_le _
      · have hle : (x k - (Grid.build pnts m).min_pnt k)
            * (Grid.build pnts m).inverse_step_sizes k
            ≤ (((Grid.build pnts m).n_steps k : ℕ) : ℚ) := by
          rw [← delta_mul_inv pnts m hok k hstep]
          apply mul_le_mul_of_nonneg_right _ (le_of_lt hinv)
          linarith
        unfold toSize
        have hfl : ⌊(x k - (Grid.build pnts m).min_pnt k)
            * (Grid.build pnts m).inverse_step_sizes k⌋
            ≤ (((Grid.build pnts m).n_steps k : ℕ) : ℤ) := by
          rw [show (((Grid.build pnts m).n_steps k : ℕ) : ℤ)
            = ⌊(((Grid.build pnts m).n_steps k : ℕ) : ℚ)⌋ from (Int.floor_natCast _).symm]
          exact Int.floor_mono hle
        omega

/-- monotone upper bound: a stored coordinate never exceeds the resolved
cell coordinate of any larger query coordinate. -/
theorem pntCoord_le_gridCoords (pnts : List Pnt) (m : ℕ) (hok : buildOK pnts m)
    (p : Pnt) (hp : p ∈ pnts) (x : Fin 3 → ℚ) (k : Fin 3)
    (hle : p k ≤ x k) :
    (Grid.build pnts m).pntCoord p k ≤ (Grid.build pnts m).getGridCoords x k := by
  unfold Grid.getGridCoords
  by_cases hlo : x k < (Grid.build pnts m).min_pnt k
  · exfalso
    have := min_le_mem pnts m p hp k
    linarith
  · rw [if_neg hlo]
    by_cases hhi : (Grid.build pnts m).max_pnt k < x k
    · rw [if_pos hhi, szSub1_eq _ (hok.1 k) (by have := hok.2.1 k; omega)]
      have := pntCoord_lt_n pnts m hok p hp k
      omega
    · rw [if_neg hhi]
      unfold Grid.pntCoord
      apply toSize_mono
      apply mul_le_mul_of_nonneg_right _ (le_of_lt (inv_pos pnts m hok k))
      linarith

/-- monotone lower bound: the resolved cell coordinate of any smaller query
coordinate never exceeds a stored coordinate. -/
theorem gridCoords_le_pntCoord (pnts : List Pnt) (m : ℕ) (hok : buildOK pnts m)
    (p : Pnt) (hp : p ∈ pnts) (x : Fin 3 → ℚ) (k : Fin 3)
    (hle : x k ≤ p k) :
    (Grid.build pnts m).getGridCoords x k ≤ (Grid.build pnts m).pntCoord p k := by
  unfold Grid.getGridCoords
  by_cases hlo : x k < (Grid.build pnts m).min_pnt k
  · rw [if_pos hlo]
    exact Nat.zero_le _
  · rw [if_neg hlo]
    by_cases hhi : (Grid.build pnts m).max_pnt k < x k
    · exfalso
      have := (hok.2.2.2.1 p hp k).1
      linarith
    · rw [if_neg hhi]
      unfold Grid.pntCoord
      apply toSize_mono
      apply mul_le_mul_of_nonneg_right _ (le_of_lt (inv_pos pnts m hok k))
      linarith

theorem mem_szRange (s b i : ℕ) (h1 : s ≤ i) (h2 : i < b) : i ∈ szRange s b := by
  unfold szRange
  exact List.mem_range'_1.mpr ⟨h1, by omega⟩

theorem szAdd_one_eq (a : ℕ) (h : a + 1 < W) : szAdd a 1 = a + 1 := by
  unfold szAdd
  exact Nat.mod_eq_of_lt h

theorem mem_cubeScan (g : Grid) (mnc mxc : Fin 3 → ℕ) (init : List Pnt) (p : Pnt)
    (i0 i1 i2 : ℕ)
    (h0 : i0 ∈ szRange (mnc 0) (szAdd (mxc 0) 1))
    (h1 : i1 ∈ szRange (mnc 1) (szAdd (mxc 1) 1))
    (h2 : i2 ∈ szRange (mnc 2) (szAdd (mxc 2) 1))
    (hp : p ∈ g.grid_quad_to_node_map (flatIdx g.n_steps i0 i1 i2)) :
    p ∈ g.cubeScan mnc mxc init := by
  rw [cubeScan_eq_concat]
  apply List.mem_append_right
  unfold concatBuckets
  apply List.mem_flatten.mpr
  refine ⟨_, List.mem_map_of_mem _ h0, ?_⟩
  apply List.mem_flatten.mpr
  refine ⟨_, List.mem_map_of_mem _ h1, ?_⟩
  apply List.mem_flatten.mpr
  exact ⟨_, List.mem_map_of_mem _ h2, hp⟩

/-- C4 (amended): under the consistency hypotheses `buildOK` (in particular
every point weakly inside the inflated upper corner and every stored cell
coordinate in range — see `C4_cex` for an input violating them on which the
claim fails), the cube query output contains every input point inside the
axis-aligned cube, and the output is exactly the caller vector followed by
the concatenated bucket contents of the inclusive cell range between the
two resolved cube corners. -/
theorem C4_cube_superset (pnts : List Pnt) (m : ℕ) (c : Fin 3 → ℚ) (h : ℚ)
    (init : List Pnt) (hok : buildOK pnts m) :
    (∀ p ∈ pnts, (∀ k : Fin 3, c k - h ≤ p k ∧ p k ≤ c k + h) →
      p ∈ (Grid.build pnts m).getPointsWithinCube c h init)
    ∧ (Grid.build pnts m).getPointsWithinCube c h init
      = init ++ concatBuckets (Grid.build pnts m)
          ((Grid.build pnts m).getGridCoords (fun k => c k - h))
          ((Grid.build pnts m).getGridCoords (fun k => c k + h)) := by
  constructor
  · intro p hp hcube
    unfold Grid.getPointsWithinCube
    have hmem : p ∈ (Grid.build pnts m).grid_quad_to_node_map
        (flatIdx (Grid.build pnts m).n_steps ((Grid.build pnts m).pntCoord p 0)
          ((Grid.build pnts m).pntCoord p 1) ((Grid.build pnts m).pntCoord p 2)) :=
      (mem_bucket_iff pnts m _ p).mpr ⟨hp, rfl⟩
    have haxis : ∀ k : Fin 3, (Grid.build pnts m).pntCoord p k ∈
        szRange ((Grid.build pnts m).getGridCoords (fun j => c j - h) k)
          (szAdd ((Grid.build pnts m).getGridCoords (fun j => c j + h) k) 1) := by
      intro k
      apply mem_szRange
      · exact gridCoords_le_pntCoord pnts m hok p hp (fun j => c j - h) k (hcube k).1
      · rw [szAdd_one_eq _ (by
          have ha := gridCoords_le_n pnts m hok (fun j => c j + h) k
          have hb := hok.2.1 k
          omega)]
        have := pntCoord_le_gridCoords pnts m hok p hp (fun j => c j + h) k (hcube k).2
        omega
    exact mem_cubeScan _ _ _ init p _ _ _ (haxis 0) (haxis 1) (haxis 2) hmem
  · unfold Grid.getPointsWithinCube
    exact cubeScan_eq_concat _ _ _ _

/-- C4 (counterexample): on the grid of `[pntA, pntB]` (density 1), `pntB`
lies inside the cube of half length 1/2 around itself but is absent from
the query result: it was stored past the end of the bucket array, so no
scanned cell contains it. -/
theorem C4_cex :
    pntB ∈ ([pntA, pntB] : List Pnt)
    ∧ (∀ k : Fin 3, pntB k - 1/2 ≤ pntB k ∧ pntB k ≤ pntB k + 1/2)
    ∧ pntB ∉ (Grid.build [pntA, pntB] 1).getPointsWithinCube pntB (1/2) [] := by
  refine ⟨by decide, by decide, by decide⟩

/-- witness for `C4_cube_superset`: on the grid of `wPnts` the point
`(1,0,0)` inside the cube around `(1/2,0,0)` of half length `3/5` is
returned. -/
theorem C4_cube_superset_witness :
    buildOK wPnts 512
    ∧ (![1, 0, 0] : Pnt) ∈ (Grid.build wPnts 512).getPointsWithinCube ![1/2, 0, 0] (3/5) [] :=
  ⟨⟨by decide, by decide, by decide, by decide, by decide⟩,
    (C4_cube_superset wPnts 512 ![1/2, 0, 0] (3/5) []
      ⟨by decide, by decide, by decide, by decide, by decide⟩).1
      ![1, 0, 0] (by decide) (by decide)⟩

/-! Distance facts. -/

theorem sqrDist_comm (a b : Pnt) : sqrDist a b = sqrDist b a := by
  unfold sqrDist
  ring

theorem sqrDist_nonneg (a b : Pnt) : 0 ≤ sqrDist a b := by
  unfold sqrDist
  positivity

theorem sqrDist_axis_le (a b : Pnt) (k : Fin 3) : (a k - b k) ^ 2 ≤ sqrDist a b := by
  unfold sqrDist
  fin_cases k
  · show (a 0 - b 0) ^ 2 ≤ (a 0 - b 0) ^ 2 + (a 1 - b 1) ^ 2 + (a 2 - b 2) ^ 2
    nlinarith [sq_nonneg (a 1 - b 1), sq_nonneg (a 2 - b 2)]
  · show (a 1 - b 1) ^ 2 ≤ (a 0 - b 0) ^ 2 + (a 1 - b 1) ^ 2 + (a 2 - b 2) ^ 2
    nlinarith [sq_nonneg (a 0 - b 0), sq_nonneg (a 2 - b 2)]
  · show (a 2 - b 2) ^ 2 ≤ (a 0 - b 0) ^ 2 + (a 1 - b 1) ^ 2 + (a 2 - b 2) ^ 2
    nlinarith [sq_nonneg (a 0 - b 0), sq_nonneg (a 1 - b 1)]

theorem toSize_le_self (x : ℚ) (hx : 0 ≤ x) : ((toSize x : ℕ) : ℚ) ≤ x := by
  unfold toSize
  have h1 : (0 : ℤ) ≤ ⌊x⌋ := Int.floor_nonneg.mpr hx
  have h2 : ((⌊x⌋.toNat : ℕ) : ℤ) = ⌊x⌋ := Int.toNat_of_nonneg h1
  have h3 : ((⌊x⌋.toNat : ℕ) : ℚ) = ((⌊x⌋ : ℤ) : ℚ) := by exact_mod_cast h2
  rw [h3]
  exact Int.floor_le x

/-! The first-encounter minimum fold of `calcNearestPointInGridCell` and of
the final verification loop of `getNearestPoint`. -/

theorem foldl_min_gen (φ : Pnt → ℚ) :
    ∀ (l : List Pnt) (b : Pnt × ℚ),
      ((l.foldl (fun b' p' => if φ p' < b'.2 then (p', φ p') else b') b) = b
        ∨ ((l.foldl (fun b' p' => if φ p' < b'.2 then (p', φ p') else b') b).1 ∈ l
          ∧ (l.foldl (fun b' p' => if φ p' < b'.2 then (p', φ p') else b') b).2
            = φ (l.foldl (fun b' p' => if φ p' < b'.2 then (p', φ p') else b') b).1))
      ∧ (l.foldl (fun b' p' => if φ p' < b'.2 then (p', φ p') else b') b).2 ≤ b.2
      ∧ ∀ p ∈ l, (l.foldl (fun b' p' => if φ p' < b'.2 then (p', φ p') else b') b).2 ≤ φ p := by
  intro l
  induction l with
  | nil =>
    intro b
    exact ⟨Or.inl rfl, le_refl _, by intro p hp; cases hp⟩
  | cons r rs ih =>
    intro b
    rw [List.foldl_cons]
    by_cases hr : φ r < b.2
    · rw [if_pos hr]
      obtain ⟨ha, hb, hc⟩ := ih (r, φ r)
      refine ⟨?_, le_trans hb (le_of_lt hr), ?_⟩
      · rcases ha with h | ⟨h1, h2⟩
        · right
          rw [h]
          exact ⟨List.mem_cons_self r rs, rfl⟩
        · exact Or.inr ⟨List.mem_cons_of_mem r h1, h2⟩
      · intro p hp
        rcases List.mem_cons.mp hp with h | h
        · subst h
          exact hb
        · exact hc p h
    · rw [if_neg hr]
      obtain ⟨ha, hb, hc⟩ := ih b
      refine ⟨?_, hb, ?_⟩
      · rcases ha with h | ⟨h1, h2⟩
        · exact Or.inl h
        · exact Or.inr ⟨List.mem_cons_of_mem r h1, h2⟩
      · intro p hp
        rcases List.mem_cons.mp hp with h | h
        · subst h
          exact le_trans hb (le_of_not_lt hr)
        · exact hc p h

theorem nearestInBucket_spec (q : Fin 3 → ℚ) (l : List Pnt) (p : Pnt) (s : ℚ)
    (h : nearestInBucket q l = some (p, s)) :
    p ∈ l ∧ s = sqrDist p q ∧ ∀ r ∈ l, s ≤ sqrDist r q := by
  cases l with
  | nil => cases h
  | cons p0 ps =>
    have h' : some (List.foldl (fun b' p' => if sqrDist p' q < b'.2 then (p', sqrDist p' q) else b')
        (p0, sqrDist p0 q) ps) = some (p, s) := h
    have hres := Option.some.inj h'
    have hfst : (List.foldl (fun b' p' => if sqrDist p' q < b'.2 then (p', sqrDist p' q) else b')
        (p0, sqrDist p0 q) ps).1 = p := congrArg Prod.fst hres
    have hsnd : (List.foldl (fun b' p' => if sqrDist p' q < b'.2 then (p', sqrDist p' q) else b')
        (p0, sqrDist p0 q) ps).2 = s := congrArg Prod.snd hres
    obtain ⟨ha, hb, hc⟩ := foldl_min_gen (fun p' => sqrDist p' q) ps (p0, sqrDist p0 q)
    refine ⟨?_, ?_, ?_⟩
    · rcases ha with h1 | ⟨h1, _⟩
      · rw [← hfst, h1]
        exact List.mem_cons_self p0 ps
      · rw [← hfst]
        exact List.mem_cons_of_mem p0 h1
    · rcases ha with h1 | ⟨_, h2⟩
      · rw [← hsnd, ← hfst, h1]
      · rw [← hsnd, ← hfst]
        exact h2
    · intro r hr
      rcases List.mem_cons.mp hr with h1 | h1
      · subst h1
        rw [← hsnd]
        exact hb
      · rw [← hsnd]
        exact hc r h1

theorem nearestInBucket_none (q : Fin 3 → ℚ) (l : List Pnt)
    (h : nearestInBucket q l = none) : l = [] := by
  cases l with
  | nil => rfl
  | cons p0 ps => cases h

theorem calc_some_spec (pnts : List Pnt) (m : ℕ) (q : Fin 3 → ℚ) (c : Fin 3 → ℕ)
    (p : Pnt) (s : ℚ)
    (h : (Grid.build pnts m).calcNearestPointInGridCell q c = some (p, s)) :
    p ∈ pnts ∧ s = sqrDist p q
    ∧ (Grid.build pnts m).pntFlat p = flatIdx (Grid.build pnts m).n_steps (c 0) (c 1) (c 2)
    ∧ ∀ r ∈ pnts,
        (Grid.build pnts m).pntFlat r = flatIdx (Grid.build pnts m).n_steps (c 0) (c 1) (c 2) →
        s ≤ sqrDist r q := by
  unfold Grid.calcNearestPointInGridCell at h
  obtain ⟨h1, h2, h3⟩ := nearestInBucket_spec q _ p s h
  obtain ⟨hmem, hflat⟩ := (mem_bucket_iff pnts m _ p).mp h1
  exact ⟨hmem, h2, hflat, fun r hr hrf =>
    h3 r ((mem_bucket_iff pnts m _ r).mpr ⟨hr, hrf⟩)⟩

theorem calc_none_spec (pnts : List Pnt) (m : ℕ) (q : Fin 3 → ℚ) (c : Fin 3 → ℕ)
    (h : (Grid.build pnts m).calcNearestPointInGridCell q c = none) :
    ∀ r ∈ pnts,
      (Grid.build pnts m).pntFlat r ≠ flatIdx (Grid.build pnts m).n_steps (c 0) (c 1) (c 2) := by
  unfold Grid.calcNearestPointInGridCell at h
  have hempty := nearestInBucket_none q _ h
  intro r hr hrf
  have : r ∈ (Grid.build pnts m).grid_quad_to_node_map
      (flatIdx (Grid.build pnts m).n_steps (c 0) (c 1) (c 2)) :=
    (mem_bucket_iff pnts m _ r).mpr ⟨hr, hrf⟩
  rw [hempty] at this
  cases this

/-! Raw formulas of the six border distances. -/

theorem borderDist_2 (g : Grid) (q : Fin 3 → ℚ) (c : Fin 3 → ℕ) :
    g.getPointCellBorderDistances q c 2
      = g.step_sizes 0 - (q 0 - g.min_pnt 0 + (c 0 : ℚ) * g.step_sizes 0) := rfl

theorem borderDist_3 (g : Grid) (q : Fin 3 → ℚ) (c : Fin 3 → ℕ) :
    g.getPointCellBorderDistances q c 3
      = g.step_sizes 1 - (q 1 - g.min_pnt 1 + (c 1 : ℚ) * g.step_sizes 1) := rfl

theorem borderDist_5 (g : Grid) (q : Fin 3 → ℚ) (c : Fin 3 → ℕ) :
    g.getPointCellBorderDistances q c 5
      = g.step_sizes 2 - (q 2 - g.min_pnt 2 + (c 2 : ℚ) * g.step_sizes 2) := rfl

/-! Early-return analysis of `getNearestPoint` (Grid.h lines 296-307): the
three far-face entries of `getPointCellBorderDistances` carry the wrong
sign of the `coords[k] * _step_sizes[k]` term, so they are negative
whenever the respective cell coordinate is positive; the nonnegativity
required by the `dists[i] >= min_dist` comparisons therefore forces all
three origin cell coordinates to be zero. -/

theorem sqrtLE_elim (u d : ℚ) (h : sqrtLE u d = true) : 0 ≤ d ∧ u ≤ d ^ 2 :=
  of_decide_eq_true h

theorem far_ineq_gen (S C Q MN : ℚ) (hS : 0 ≤ S) (hC : 1 ≤ C) (hQ : MN < Q) :
    S - (Q - MN + C * S) < 0 := by
  nlinarith [mul_nonneg hS (by linarith : (0 : ℚ) ≤ C - 1)]

theorem gridCoord_pos_far_neg (pnts : List Pnt) (m : ℕ) (hok : buildOK pnts m)
    (q : Fin 3 → ℚ) (k : Fin 3)
    (hc : 1 ≤ (Grid.build pnts m).getGridCoords q k) :
    (Grid.build pnts m).step_sizes k
      - (q k - (Grid.build pnts m).min_pnt k
        + (((Grid.build pnts m).getGridCoords q k : ℕ) : ℚ)
          * (Grid.build pnts m).step_sizes k) < 0 := by
  have hstep := step_nonneg pnts m hok k
  have hinv := inv_pos pnts m hok k
  unfold Grid.getGridCoords at hc ⊢
  by_cases hlo : q k < (Grid.build pnts m).min_pnt k
  · rw [if_pos hlo] at hc
    omega
  · rw [if_neg hlo] at hc ⊢
    by_cases hhi : (Grid.build pnts m).max_pnt k < q k
    · rw [if_pos hhi] at hc ⊢
      have h5 := hok.2.2.2.2 k
      have hqgt : (Grid.build pnts m).min_pnt k < q k := lt_of_le_of_lt h5 hhi
      have hc1 : (1 : ℚ) ≤ ((szSub1 ((Grid.build pnts m).n_steps k) : ℕ) : ℚ) :=
        Nat.one_le_cast.mpr hc
      exact far_ineq_gen _ _ _ _ hstep hc1 hqgt
    · rw [if_neg hhi] at hc ⊢
      have hmn : (Grid.build pnts m).min_pnt k ≤ q k := le_of_not_lt hlo
      have ht0 : 0 ≤ (q k - (Grid.build pnts m).min_pnt k)
          * (Grid.build pnts m).inverse_step_sizes k :=
        mul_nonneg (by linarith) (le_of_lt hinv)
      have hcle := toSize_le_self _ ht0
      have hc1 : (1 : ℚ) ≤ ((toSize ((q k - (Grid.build pnts m).min_pnt k)
          * (Grid.build pnts m).inverse_step_sizes k) : ℕ) : ℚ) :=
        Nat.one_le_cast.mpr hc
      have ht1 : 1 ≤ (q k - (Grid.build pnts m).min_pnt k)
          * (Grid.build pnts m).inverse_step_sizes k := le_trans hc1 hcle
      by_cases hstep0 : (Grid.build pnts m).step_sizes k = 0
      · rw [hstep0]
        have hq : 0 < q k - (Grid.build pnts m).min_pnt k := by
          by_contra hcon
          push_neg at hcon
          have hle0 : (q k - (Grid.build pnts m).min_pnt k)
              * (Grid.build pnts m).inverse_step_sizes k ≤ 0 :=
            mul_nonpos_of_nonpos_of_nonneg (by linarith) (le_of_lt hinv)
          linarith
        nlinarith
      · have hinv_eq : (Grid.build pnts m).inverse_step_sizes k
            = 1 / (Grid.build pnts m).step_sizes k := by
          rw [build_inverse_step_sizes, if_neg hstep0]
        have hstep_pos : 0 < (Grid.build pnts m).step_sizes k :=
          lt_of_le_of_ne hstep (Ne.symm hstep0)
        have hqmn : q k - (Grid.build pnts m).min_pnt k
            = (q k - (Grid.build pnts m).min_pnt k)
              * (Grid.build pnts m).inverse_step_sizes k
              * (Grid.build pnts m).step_sizes k := by
          rw [hinv_eq]
          field_simp
        have h3 : (Grid.build pnts m).step_sizes k
            ≤ (q k - (Grid.build pnts m).min_pnt k)
              * (Grid.build pnts m).inverse_step_sizes k
              * (Grid.build pnts m).step_sizes k :=
          le_mul_of_one_le_left (le_of_lt hstep_pos) ht1 |>.trans_eq (by ring)
        have h4 : (Grid.build pnts m).step_sizes k
            ≤ ((toSize ((q k - (Grid.build pnts m).min_pnt k)
              * (Grid.build pnts m).inverse_step_sizes k) : ℕ) : ℚ)
              * (Grid.build pnts m).step_sizes k :=
          le_mul_of_one_le_left (le_of_lt hstep_pos) hc1
        linarith [hqmn.ge, hqmn.le]

theorem coord_zero_of_far_nonneg (pnts : List Pnt) (m : ℕ) (hok : buildOK pnts m)
    (q : Fin 3 → ℚ) (k : Fin 3)
    (hge : 0 ≤ (Grid.build pnts m).step_sizes k
      - (q k - (Grid.build pnts m).min_pnt k
        + (((Grid.build pnts m).getGridCoords q k : ℕ) : ℚ)
          * (Grid.build pnts m).step_sizes k)) :
    (Grid.build pnts m).getGridCoords q k = 0 := by
  by_contra hne
  have hc : 1 ≤ (Grid.build pnts m).getGridCoords q k := Nat.one_le_iff_ne_zero.mpr hne
  have := gridCoord_pos_far_neg pnts m hok q k hc
  linarith

/-- every stored point lies at or above the lower face of its cell. -/
theorem stored_lb (pnts : List Pnt) (m : ℕ) (hok : buildOK pnts m)
    (r : Pnt) (hr : r ∈ pnts) (k : Fin 3) :
    (Grid.build pnts m).min_pnt k
      + (((Grid.build pnts m).pntCoord r k : ℕ) : ℚ) * (Grid.build pnts m).step_sizes k
      ≤ r k := by
  have hmn := min_le_mem pnts m r hr k
  have hinv := inv_pos pnts m hok k
  have hstep := step_nonneg pnts m hok k
  unfold Grid.pntCoord
  by_cases hstep0 : (Grid.build pnts m).step_sizes k = 0
  · rw [hstep0, mul_zero]
    linarith
  · have hinv_eq : (Grid.build pnts m).inverse_step_sizes k
        = 1 / (Grid.build pnts m).step_sizes k := by
      rw [build_inverse_step_sizes, if_neg hstep0]
    have ht0 : 0 ≤ (r k - (Grid.build pnts m).min_pnt k)
        * (Grid.build pnts m).inverse_step_sizes k :=
      mul_nonneg (by linarith) (le_of_lt hinv)
    have hle := toSize_le_self _ ht0
    have h2 := mul_le_mul_of_nonneg_right hle hstep
    have h3 : (r k - (Grid.build pnts m).min_pnt k)
        * (Grid.build pnts m).inverse_step_sizes k * (Grid.build pnts m).step_sizes k
        = r k - (Grid.build pnts m).min_pnt k := by
      rw [hinv_eq]
      field_simp
    rw [h3] at h2
    linarith

/-- if a stored point has a positive cell coordinate on an axis whose
(correctly signed) far-face distance at the origin cell is nonnegative and
dominates `√s`, its squared distance to the query dominates `s`. -/
theorem axis_far_bound (pnts : List Pnt) (m : ℕ) (hok : buildOK pnts m)
    (q : Fin 3 → ℚ) (r : Pnt) (hr : r ∈ pnts) (k : Fin 3) (s : ℚ)
    (hfar0 : 0 ≤ (Grid.build pnts m).step_sizes k - (q k - (Grid.build pnts m).min_pnt k))
    (hfar2 : s ≤ ((Grid.build pnts m).step_sizes k
      - (q k - (Grid.build pnts m).min_pnt k)) ^ 2)
    (hik : 1 ≤ (Grid.build pnts m).pntCoord r k) :
    s ≤ sqrDist r q := by
  have hlb := stored_lb pnts m hok r hr k
  have hstep := step_nonneg pnts m hok k
  have hc1 : (1 : ℚ) ≤ (((Grid.build pnts m).pntCoord r k : ℕ) : ℚ) :=
    Nat.one_le_cast.mpr hik
  have hcs : (Grid.build pnts m).step_sizes k
      ≤ (((Grid.build pnts m).pntCoord r k : ℕ) : ℚ)
        * (Grid.build pnts m).step_sizes k := le_mul_of_one_le_left hstep hc1
  have hgap : (Grid.build pnts m).step_sizes k - (q k - (Grid.build pnts m).min_pnt k)
      ≤ r k - q k := by linarith
  have hsq := sq_le_sq_of_nonneg _ _ hfar0 hgap
  have haxis := sqrDist_axis_le r q k
  linarith

/-- a nonzero flattened bucket index forces a positive cell coordinate on
some axis. -/
theorem pntFlat_pos_coord (pnts : List Pnt) (m : ℕ) (r : Pnt)
    (hne : (Grid.build pnts m).pntFlat r ≠ 0) :
    1 ≤ (Grid.build pnts m).pntCoord r 0
    ∨ 1 ≤ (Grid.build pnts m).pntCoord r 1
    ∨ 1 ≤ (Grid.build pnts m).pntCoord r 2 := by
  by_contra hcon
  push_neg at hcon
  obtain ⟨h0, h1, h2⟩ := hcon
  apply hne
  unfold Grid.pntFlat
  have e0 : (Grid.build pnts m).pntCoord r 0 = 0 := by omega
  have e1 : (Grid.build pnts m).pntCoord r 1 = 0 := by omega
  have e2 : (Grid.build pnts m).pntCoord r 2 = 0 := by omega
  rw [e0, e1, e2]
  unfold flatIdx
  simp

/-- minimality of the early-return candidate: when every border-distance
comparison of Grid.h lines 301-303 holds, the candidate of the origin cell
is globally nearest. -/
theorem early_return_minimal (pnts : List Pnt) (m : ℕ) (hok : buildOK pnts m)
    (q : Fin 3 → ℚ) (np : Pnt) (s : ℚ)
    (hcalc : (Grid.build pnts m).calcNearestPointInGridCell q
        ((Grid.build pnts m).getGridCoords q) = some (np, s))
    (hd : ∀ f : Fin 6, sqrtLE s ((Grid.build pnts m).getPointCellBorderDistances q
        ((Grid.build pnts m).getGridCoords q) f) = true) :
    np ∈ pnts ∧ ∀ r ∈ pnts, sqrDist q np ≤ sqrDist q r := by
  obtain ⟨hnp, hs, hfnp, hmin⟩ := calc_some_spec pnts m q _ np s hcalc
  have hsqLE : ∀ f : Fin 6, 0 ≤ (Grid.build pnts m).getPointCellBorderDistances q
      ((Grid.build pnts m).getGridCoords q) f
      ∧ s ≤ ((Grid.build pnts m).getPointCellBorderDistances q
        ((Grid.build pnts m).getGridCoords q) f) ^ 2 :=
    fun f => sqrtLE_elim _ _ (hd f)
  have hz : ∀ k : Fin 3, (Grid.build pnts m).getGridCoords q k = 0 := by
    intro k
    fin_cases k
    · exact coord_zero_of_far_nonneg pnts m hok q 0 (by
        have h := (hsqLE 2).1
        rw [borderDist_2] at h
        exact h)
    · exact coord_zero_of_far_nonneg pnts m hok q 1 (by
        have h := (hsqLE 3).1
        rw [borderDist_3] at h
        exact h)
    · exact coord_zero_of_far_nonneg pnts m hok q 2 (by
        have h := (hsqLE 5).1
        rw [borderDist_5] at h
        exact h)
  refine ⟨hnp, ?_⟩
  intro r hrm
  rw [sqrDist_comm q np, sqrDist_comm q r, ← hs]
  by_cases hfl : (Grid.build pnts m).pntFlat r
      = flatIdx (Grid.build pnts m).n_steps ((Grid.build pnts m).getGridCoords q 0)
        ((Grid.build pnts m).getGridCoords q 1) ((Grid.build pnts m).getGridCoords q 2)
  · exact hmin r hrm hfl
  · have hflc : flatIdx (Grid.build pnts m).n_steps
        ((Grid.build pnts m).getGridCoords q 0) ((Grid.build pnts m).getGridCoords q 1)
        ((Grid.build pnts m).getGridCoords q 2) = 0 := by
      rw [hz 0, hz 1, hz 2]
      unfold flatIdx
      simp
    have hne0 : (Grid.build pnts m).pntFlat r ≠ 0 := by
      rw [← hflc]
      exact hfl
    rcases pntFlat_pos_coord pnts m r hne0 with hk | hk | hk
    · have h := hsqLE 2
      rw [borderDist_2, hz 0] at h
      simp only [Nat.cast_zero, zero_mul, add_zero] at h
      exact axis_far_bound pnts m hok q r hrm 0 s h.1 h.2 hk
    · have h := hsqLE 3
      rw [borderDist_3, hz 1] at h
      simp only [Nat.cast_zero, zero_mul, add_zero] at h
      exact axis_far_bound pnts m hok q r hrm 1 s h.1 h.2 hk
    · have h := hsqLE 5
      rw [borderDist_5, hz 2] at h
      simp only [Nat.cast_zero, zero_mul, add_zero] at h
      exact axis_far_bound pnts m hok q r hrm 2 s h.1 h.2 hk

/-! Cover analysis of the final widen-and-verify cube of `getNearestPoint`
(Grid.h lines 360-376). -/

/-- every element of a scanned cube came out of some bucket, hence is an
input point. -/
theorem cubeScan_subset (pnts : List Pnt) (m : ℕ) (mnc mxc : Fin 3 → ℕ) (p : Pnt)
    (hp : p ∈ (Grid.build pnts m).cubeScan mnc mxc []) : p ∈ pnts := by
  rw [cubeScan_eq_concat] at hp
  rcases List.mem_append.mp hp with h | h
  · cases h
  · unfold concatBuckets at h
    obtain ⟨l0, hl0, h⟩ := List.mem_flatten.mp h
    obtain ⟨c0, hc0, rfl⟩ := List.mem_map.mp hl0
    obtain ⟨l1, hl1, h⟩ := List.mem_flatten.mp h
    obtain ⟨c1, hc1, rfl⟩ := List.mem_map.mp hl1
    obtain ⟨l2, hl2, h⟩ := List.mem_flatten.mp h
    obtain ⟨c2, hc2, rfl⟩ := List.mem_map.mp hl2
    exact ((mem_bucket_iff pnts m _ p).mp h).1

/-- membership at the encoded `⌊t + √u⌋`: the result is at most `t`, or its
offset from `t` has square at most `u`. -/
theorem floorAddSqrt_mem (t u : ℚ) :
    ((floorAddSqrt t u : ℤ) : ℚ) ≤ t
    ∨ (((floorAddSqrt t u : ℤ) : ℚ) - t) ^ 2 ≤ u := by
  cases Nat.eq_zero_or_pos (searchLeast
      (fun m => decide (u < ((Rat.floor t : ℚ) + (m : ℚ) + 1 - t) ^ 2))
      (ceilSqrt u + 1) 0) with
  | inl h0 =>
    left
    unfold floorAddSqrt
    rw [h0]
    push_cast
    have := ratFloor_le_self t
    push_cast at this
    linarith
  | inr hpos =>
    right
    have hmin := searchLeast_min_prop
      (fun m => u < ((Rat.floor t : ℚ) + (m : ℚ) + 1 - t) ^ 2) (ceilSqrt u + 1)
      (searchLeast (fun m => decide (u < ((Rat.floor t : ℚ) + (m : ℚ) + 1 - t) ^ 2))
        (ceilSqrt u + 1) 0 - 1) (Nat.sub_lt hpos Nat.one_pos)
    have hmin0 : ¬ u < ((Rat.floor t : ℚ)
        + ((searchLeast (fun m => decide (u < ((Rat.floor t : ℚ) + (m : ℚ) + 1 - t) ^ 2))
          (ceilSqrt u + 1) 0 - 1 : ℕ) : ℚ) + 1 - t) ^ 2 := hmin
    have hmin1 := le_of_not_lt hmin0
    have hc : (((searchLeast (fun m => decide (u < ((Rat.floor t : ℚ) + (m : ℚ) + 1 - t) ^ 2))
        (ceilSqrt u + 1) 0 - 1 : ℕ)) : ℚ)
        = ((searchLeast (fun m => decide (u < ((Rat.floor t : ℚ) + (m : ℚ) + 1 - t) ^ 2))
          (ceilSqrt u + 1) 0 : ℕ) : ℚ) - 1 := by
      rw [Nat.cast_sub hpos]
      norm_num
    rw [hc] at hmin1
    have he : ((floorAddSqrt t u : ℤ) : ℚ) - t
        = (Rat.floor t : ℚ)
          + (((searchLeast (fun m => decide (u < ((Rat.floor t : ℚ) + (m : ℚ) + 1 - t) ^ 2))
            (ceilSqrt u + 1) 0 : ℕ) : ℚ) - 1) + 1 - t := by
      unfold floorAddSqrt
      push_cast
      ring
    rw [he]
    exact hmin1

/-- the encoded `⌊t + √u⌋` is bounded by `⌊t + D⌋` for any `D ≥ √u`. -/
theorem floorAddSqrt_le_floor_add (t u D : ℚ) (hu : 0 ≤ u) (hD : 0 ≤ D)
    (hle : u ≤ D ^ 2) : floorAddSqrt t u ≤ ⌊t + D⌋ := by
  apply Int.le_floor.mpr
  rcases floorAddSqrt_mem t u with h | h
  · linarith
  · nlinarith [h, hle, hD]

/-- the lower cube corner of the verification cube never overshoots the
cell of a point strictly inside the ball of radius `√u` on that axis. -/
theorem gridCoordsSubSqrt_le_pntCoord (pnts : List Pnt) (m : ℕ) (hok : buildOK pnts m)
    (r : Pnt) (hr : r ∈ pnts) (q : Fin 3 → ℚ) (u : ℚ) (k : Fin 3) (hu : 0 ≤ u)
    (hball : (q k - r k) ^ 2 < u) :
    (Grid.build pnts m).gridCoordsSubSqrt q u k ≤ (Grid.build pnts m).pntCoord r k := by
  have hipos := inv_pos pnts m hok k
  have hrmax := (hok.2.2.2.1 r hr k).1
  have hrmin := min_le_mem pnts m r hr k
  unfold Grid.gridCoordsSubSqrt
  by_cases h1 : ltSqrt (q k - (Grid.build pnts m).min_pnt k) u = true
  · rw [if_pos h1]
    exact Nat.zero_le _
  · rw [if_neg h1]
    by_cases h2 : gtSqrt (q k - (Grid.build pnts m).max_pnt k) u = true
    · exfalso
      have hg : 0 ≤ q k - (Grid.build pnts m).max_pnt k
          ∧ u < (q k - (Grid.build pnts m).max_pnt k) ^ 2 := of_decide_eq_true h2
      have hb : q k - (Grid.build pnts m).max_pnt k ≤ q k - r k := by linarith
      have := sq_le_sq_of_nonneg _ _ hg.1 hb
      linarith [hg.2]
    · rw [if_neg h2]
      show (if 0 ≤ (Grid.build pnts m).inverse_step_sizes k
          then (floorSubSqrt ((q k - (Grid.build pnts m).min_pnt k)
            * (Grid.build pnts m).inverse_step_sizes k)
            (u * (Grid.build pnts m).inverse_step_sizes k ^ 2)).toNat
          else (floorAddSqrt ((q k - (Grid.build pnts m).min_pnt k)
            * (Grid.build pnts m).inverse_step_sizes k)
            (u * (Grid.build pnts m).inverse_step_sizes k ^ 2)).toNat)
        ≤ (Grid.build pnts m).pntCoord r k
      rw [if_pos (le_of_lt hipos)]
      have hfl : floorSubSqrt ((q k - (Grid.build pnts m).min_pnt k)
            * (Grid.build pnts m).inverse_step_sizes k)
            (u * (Grid.build pnts m).inverse_step_sizes k ^ 2)
          ≤ ⌊(r k - (Grid.build pnts m).min_pnt k)
            * (Grid.build pnts m).inverse_step_sizes k⌋ := by
        apply floorSubSqrt_le_floor _ _ _ (mul_nonneg hu (sq_nonneg _))
        have he : (q k - (Grid.build pnts m).min_pnt k)
              * (Grid.build pnts m).inverse_step_sizes k
            - (r k - (Grid.build pnts m).min_pnt k)
              * (Grid.build pnts m).inverse_step_sizes k
            = (q k - r k) * (Grid.build pnts m).inverse_step_sizes k := by ring
        rcases lt_or_le (q k) (r k) with hlt | hge
        · left
          rw [he]
          exact mul_neg_of_neg_of_pos (by linarith) hipos
        · right
          refine ⟨?_, ?_⟩
          · rw [he]
            exact mul_nonneg (by linarith) (le_of_lt hipos)
          · rw [he]
            calc ((q k - r k) * (Grid.build pnts m).inverse_step_sizes k) ^ 2
                = (q k - r k) ^ 2 * (Grid.build pnts m).inverse_step_sizes k ^ 2 := by
                  ring
              _ < u * (Grid.build pnts m).inverse_step_sizes k ^ 2 :=
                  mul_lt_mul_of_pos_right hball (by positivity)
      unfold Grid.pntCoord toSize
      omega

/-- the upper cube corner of the verification cube never undershoots the
cell of a point strictly inside the ball of radius `√u` on that axis. -/
theorem pntCoord_le_gridCoordsAddSqrt (pnts : List Pnt) (m : ℕ) (hok : buildOK pnts m)
    (r : Pnt) (hr : r ∈ pnts) (q : Fin 3 → ℚ) (u : ℚ) (k : Fin 3) (hu : 0 ≤ u)
    (hball : (q k - r k) ^ 2 < u) :
    (Grid.build pnts m).pntCoord r k ≤ (Grid.build pnts m).gridCoordsAddSqrt q u k := by
  have hipos := inv_pos pnts m hok k
  have hrmin := min_le_mem pnts m r hr k
  unfold Grid.gridCoordsAddSqrt
  by_cases h1 : gtSqrt ((Grid.build pnts m).min_pnt k - q k) u = true
  · exfalso
    have hg : 0 ≤ (Grid.build pnts m).min_pnt k - q k
        ∧ u < ((Grid.build pnts m).min_pnt k - q k) ^ 2 := of_decide_eq_true h1
    have hb : (Grid.build pnts m).min_pnt k - q k ≤ r k - q k := by linarith
    have hsq := sq_le_sq_of_nonneg _ _ hg.1 hb
    have he : (r k - q k) ^ 2 = (q k - r k) ^ 2 := by ring
    rw [he] at hsq
    linarith [hg.2]
  · rw [if_neg h1]
    by_cases h2 : ltSqrt ((Grid.build pnts m).max_pnt k - q k) u = true
    · rw [if_pos h2, szSub1_eq _ (hok.1 k) (by have := hok.2.1 k; omega)]
      have := pntCoord_lt_n pnts m hok r hr k
      omega
    · rw [if_neg h2]
      show (Grid.build pnts m).pntCoord r k
        ≤ (if 0 ≤ (Grid.build pnts m).inverse_step_sizes k
          then (floorAddSqrt ((q k - (Grid.build pnts m).min_pnt k)
            * (Grid.build pnts m).inverse_step_sizes k)
            (u * (Grid.build pnts m).inverse_step_sizes k ^ 2)).toNat
          else (floorSubSqrt ((q k - (Grid.build pnts m).min_pnt k)
            * (Grid.build pnts m).inverse_step_sizes k)
            (u * (Grid.build pnts m).inverse_step_sizes k ^ 2)).toNat)
      rw [if_pos (le_of_lt hipos)]
      have hfl : ⌊(r k - (Grid.build pnts m).min_pnt k)
            * (Grid.build pnts m).inverse_step_sizes k⌋
          ≤ floorAddSqrt ((q k - (Grid.build pnts m).min_pnt k)
            * (Grid.build pnts m).inverse_step_sizes k)
            (u * (Grid.build pnts m).inverse_step_sizes k ^ 2) := by
        apply floor_le_floorAddSqrt _ _ _ (mul_nonneg hu (sq_nonneg _))
        have he : (r k - (Grid.build pnts m).min_pnt k)
              * (Grid.build pnts m).inverse_step_sizes k
            - (q k - (Grid.build pnts m).min_pnt k)
              * (Grid.build pnts m).inverse_step_sizes k
            = (r k - q k) * (Grid.build pnts m).inverse_step_sizes k := by ring
        rcases lt_or_le (r k) (q k) with hlt | hge
        · left
          rw [he]
          exact mul_neg_of_neg_of_pos (by linarith) hipos
        · right
          refine ⟨?_, ?_⟩
          · rw [he]
            exact mul_nonneg (by linarith) (le_of_lt hipos)
          · rw [he]
            have he2 : (r k - q k) ^ 2 = (q k - r k) ^ 2 := by ring
            calc ((r k - q k) * (Grid.build pnts m).inverse_step_sizes k) ^ 2
                = (r k - q k) ^ 2 * (Grid.build pnts m).inverse_step_sizes k ^ 2 := by
                  ring
              _ = (q k - r k) ^ 2 * (Grid.build pnts m).inverse_step_sizes k ^ 2 := by
                  rw [he2]
              _ < u * (Grid.build pnts m).inverse_step_sizes k ^ 2 :=
                  mul_lt_mul_of_pos_right hball (by positivity)
      unfold Grid.pntCoord toSize
      omega

/-- the upper cube corner of the verification cube stays within the cell
counts. -/
theorem gridCoordsAddSqrt_le_n (pnts : List Pnt) (m : ℕ) (hok : buildOK pnts m)
    (q : Fin 3 → ℚ) (u : ℚ) (k : Fin 3) (hu : 0 ≤ u) :
    (Grid.build pnts m).gridCoordsAddSqrt q u k ≤ (Grid.build pnts m).n_steps k := by
  have hipos := inv_pos pnts m hok k
  unfold Grid.gridCoordsAddSqrt
  by_cases h1 : gtSqrt ((Grid.build pnts m).min_pnt k - q k) u = true
  · rw [if_pos h1]
    exact Nat.zero_le _
  · rw [if_neg h1]
    by_cases h2 : ltSqrt ((Grid.build pnts m).max_pnt k - q k) u = true
    · rw [if_pos h2, szSub1_eq _ (hok.1 k) (by have := hok.2.1 k; omega)]
      omega
    · rw [if_neg h2]
      show (if 0 ≤ (Grid.build pnts m).inverse_step_sizes k
          then (floorAddSqrt ((q k - (Grid.build pnts m).min_pnt k)
            * (Grid.build pnts m).inverse_step_sizes k)
            (u * (Grid.build pnts m).inverse_step_sizes k ^ 2)).toNat
          else (floorSubSqrt ((q k - (Grid.build pnts m).min_pnt k)
            * (Grid.build pnts m).inverse_step_sizes k)
            (u * (Grid.build pnts m).inverse_step_sizes k ^ 2)).toNat)
        ≤ (Grid.build pnts m).n_steps k
      rw [if_pos (le_of_lt hipos)]
      have hnot : ¬((Grid.build pnts m).max_pnt k - q k < 0
          ∨ ((Grid.build pnts m).max_pnt k - q k) ^ 2 < u) :=
        fun hcon => h2 (decide_eq_true hcon)
      push_neg at hnot
      obtain ⟨hD0', hDsq'⟩ := hnot
      have hD0 : 0 ≤ (Grid.build pnts m).max_pnt k - q k := hD0'
      have hDsq : u ≤ ((Grid.build pnts m).max_pnt k - q k) ^ 2 := hDsq'
      have hf := floorAddSqrt_le_floor_add
        ((q k - (Grid.build pnts m).min_pnt k) * (Grid.build pnts m).inverse_step_sizes k)
        (u * (Grid.build pnts m).inverse_step_sizes k ^ 2)
        (((Grid.build pnts m).max_pnt k - q k) * (Grid.build pnts m).inverse_step_sizes k)
        (mul_nonneg hu (sq_nonneg _))
        (mul_nonneg hD0 (le_of_lt hipos))
        (by
          calc u * (Grid.build pnts m).inverse_step_sizes k ^ 2
              ≤ ((Grid.build pnts m).max_pnt k - q k) ^ 2
                * (Grid.build pnts m).inverse_step_sizes k ^ 2 :=
                mul_le_mul_of_nonneg_right hDsq (sq_nonneg _)
            _ = (((Grid.build pnts m).max_pnt k - q k)
                * (Grid.build pnts m).inverse_step_sizes k) ^ 2 := by ring)
      have hsum : (q k - (Grid.build pnts m).min_pnt k)
            * (Grid.build pnts m).inverse_step_sizes k
          + ((Grid.build pnts m).max_pnt k - q k)
            * (Grid.build pnts m).inverse_step_sizes k
          = ((Grid.build pnts m).max_pnt k - (Grid.build pnts m).min_pnt k)
            * (Grid.build pnts m).inverse_step_sizes k := by ring
      rw [hsum] at hf
      by_cases hstep0 : (Grid.build pnts m).step_sizes k = 0
      · have hdeg := delta_zero_of_step_zero pnts m hok k hstep0
        rw [hdeg, sub_self, zero_mul, Int.floor_zero] at hf
        omega
      · rw [delta_mul_inv pnts m hok k hstep0, Int.floor_natCast] at hf
        omega

/-- correctness of the widen-and-verify step: started from a candidate
input point with its exact squared distance, `finalize` returns a globally
nearest input point. -/
theorem finalize_correct (pnts : List Pnt) (m : ℕ) (hok : buildOK pnts m)
    (q : Fin 3 → ℚ) (np : Pnt) (hnp : np ∈ pnts) (s : ℚ) (hs : s = sqrDist q np) :
    (Grid.build pnts m).finalize q np s ∈ pnts
    ∧ ∀ r ∈ pnts, sqrDist q ((Grid.build pnts m).finalize q np s) ≤ sqrDist q r := by
  show (((Grid.build pnts m).getPointsWithinCubeSqrt q (sqrDist q np)).foldl
      (fun b p => if sqrDist q p < b.2 then (p, sqrDist q p) else b) (np, s)).1 ∈ pnts
    ∧ ∀ r ∈ pnts,
      sqrDist q (((Grid.build pnts m).getPointsWithinCubeSqrt q (sqrDist q np)).foldl
        (fun b p => if sqrDist q p < b.2 then (p, sqrDist q p) else b) (np, s)).1
      ≤ sqrDist q r
  obtain ⟨ha, hb, hc⟩ := foldl_min_gen (fun p => sqrDist q p)
    ((Grid.build pnts m).getPointsWithinCubeSqrt q (sqrDist q np)) (np, s)
  constructor
  · rcases ha with h | ⟨h, _⟩
    · rw [h]
      exact hnp
    · unfold Grid.getPointsWithinCubeSqrt at h
      exact cubeScan_subset pnts m _ _ _ h
  · intro r hrm
    have hR2 : (((Grid.build pnts m).getPointsWithinCubeSqrt q (sqrDist q np)).foldl
        (fun b' p' => if sqrDist q p' < b'.2 then (p', sqrDist q p') else b') (np, s)).2
        = sqrDist q (((Grid.build pnts m).getPointsWithinCubeSqrt q (sqrDist q np)).foldl
          (fun b' p' => if sqrDist q p' < b'.2 then (p', sqrDist q p') else b') (np, s)).1 := by
      rcases ha with h | ⟨_, h⟩
      · rw [h]
        exact hs
      · exact h
    rw [← hR2]
    by_contra hcon
    push_neg at hcon
    have hru : sqrDist q r < sqrDist q np := by
      have := le_trans hb (le_of_eq hs)
      linarith
    have hu : 0 ≤ sqrDist q np := sqrDist_nonneg q np
    have hball : ∀ k : Fin 3, (q k - r k) ^ 2 < sqrDist q np :=
      fun k => lt_of_le_of_lt (sqrDist_axis_le q r k) hru
    have hmem : r ∈ (Grid.build pnts m).getPointsWithinCubeSqrt q (sqrDist q np) := by
      unfold Grid.getPointsWithinCubeSqrt
      have hax : ∀ k : Fin 3, (Grid.build pnts m).pntCoord r k ∈
          szRange ((Grid.build pnts m).gridCoordsSubSqrt q (sqrDist q np) k)
            (szAdd ((Grid.build pnts m).gridCoordsAddSqrt q (sqrDist q np) k) 1) := by
        intro k
        apply mem_szRange
        · exact gridCoordsSubSqrt_le_pntCoord pnts m hok r hrm q _ k hu (hball k)
        · rw [szAdd_one_eq _ (by
            have h1 := gridCoordsAddSqrt_le_n pnts m hok q (sqrDist q np) k hu
            have h2 := hok.2.1 k
            omega)]
          have := pntCoord_le_gridCoordsAddSqrt pnts m hok r hrm q _ k hu (hball k)
          omega
      exact mem_cubeScan _ _ _ [] r _ _ _ (hax 0) (hax 1) (hax 2)
        ((mem_bucket_iff pnts m _ r).mpr ⟨hrm, rfl⟩)
    exact absurd (hc r hmem) (by linarith)

/-! Invariant of the expanding ring search of `getNearestPoint`. -/

theorem foldl_preserve {α β : Type} (P : β → Prop) (f : β → α → β)
    (l : List α) (hstep : ∀ b a, P b → P (f b a)) :
    ∀ b, P b → P (l.foldl f b) := by
  induction l with
  | nil =>
    intro b hb
    exact hb
  | cons x xs ih =>
    intro b hb
    exact ih _ (hstep b x hb)

/-- the running state of the ring search holds an input point together with
its exact squared distance to the query, whenever it holds a point. -/
def ringInv (pnts : List Pnt) (q : Fin 3 → ℚ) (st : ℚ × Option Pnt) : Prop :=
  ∀ p, st.2 = some p → p ∈ pnts ∧ st.1 = sqrDist p q

theorem ringPass_inv (pnts : List Pnt) (m : ℕ) (q : Fin 3 → ℚ) (c : Fin 3 → ℕ) (o : ℕ)
    (st : ℚ × Option Pnt) (hst : ringInv pnts q st) :
    ringInv pnts q ((Grid.build pnts m).ringPass q c o st) := by
  unfold Grid.ringPass
  refine foldl_preserve _ _ _ ?_ st hst
  intro b t0 hb
  refine foldl_preserve _ _ _ ?_ b hb
  intro b1 t1 hb1
  refine foldl_preserve _ _ _ ?_ b1 hb1
  intro b2 t2 hb2
  by_cases hskip : t0 = c 0 ∧ t1 = c 1 ∧ t2 = c 2
  · rw [if_pos hskip]
    exact hb2
  · rw [if_neg hskip]
    by_cases hval : t0 < (Grid.build pnts m).n_steps 0
        ∧ t1 < (Grid.build pnts m).n_steps 1 ∧ t2 < (Grid.build pnts m).n_steps 2
    · rw [if_pos hval]
      cases hcalc : (Grid.build pnts m).calcNearestPointInGridCell q ![t0, t1, t2] with
      | none =>
        exact hb2
      | some pd =>
        obtain ⟨p', d⟩ := pd
        obtain ⟨hp', hd, _, _⟩ := calc_some_spec pnts m q ![t0, t1, t2] p' d hcalc
        show ringInv pnts q (if d < b2.1 then (d, some p') else b2)
        by_cases hlt : d < b2.1
        · rw [if_pos hlt]
          intro p hp
          have hpe : p' = p := Option.some.inj hp
          exact ⟨hpe ▸ hp', hpe ▸ hd⟩
        · rw [if_neg hlt]
          exact hb2
    · rw [if_neg hval]
      exact hb2

theorem ringLoop_inv (pnts : List Pnt) (m : ℕ) (q : Fin 3 → ℚ) (c : Fin 3 → ℕ) :
    ∀ (fuel o : ℕ) (s : ℚ) (p : Pnt) (s' : ℚ),
      (Grid.build pnts m).ringLoop q c fuel o s = some (p, s') →
      p ∈ pnts ∧ s' = sqrDist p q := by
  intro fuel
  induction fuel with
  | zero =>
    intro o s p s' h
    cases h
  | succ n ih =>
    intro o s p s' h
    unfold Grid.ringLoop at h
    have hinv : ringInv pnts q ((Grid.build pnts m).ringPass q c o (s, none)) :=
      ringPass_inv pnts m q c o (s, none) (by intro p hp; cases hp)
    cases hps : (Grid.build pnts m).ringPass q c o (s, none) with
    | mk s1 ob =>
      rw [hps] at h hinv
      cases ob with
      | none =>
        exact ih (o + 1) s1 p s' h
      | some p1 =>
        have h' : some (p1, s1) = some (p, s') := h
        have hpair := Option.some.inj h'
        have hp1 : p1 = p := congrArg Prod.fst hpair
        have hs1 : s1 = s' := congrArg Prod.snd hpair
        obtain ⟨hmem, hsd⟩ := hinv p1 rfl
        have hsd1 : s1 = sqrDist p1 q := hsd
        exact ⟨hp1 ▸ hmem, by rw [← hs1, hsd1, hp1]⟩

/-- C1 (amended): as stated the claim is false — `C1_cex_no_result` gives a
non-empty collection and a query on which `getNearestPoint` returns no
point at all (the ring search never terminates).  The correct part is
conditional soundness: under the consistency hypotheses `buildOK`, whenever
`getNearestPoint` does return a point, that point belongs to the input
collection and its squared (hence Euclidean) distance to the query is
minimal over all input points, i.e. it matches a brute-force linear scan up
to ties. -/
theorem C1_nearest_sound (pnts : List Pnt) (m : ℕ) (hok : buildOK pnts m)
    (q : Fin 3 → ℚ) (fuel : ℕ) (res : Pnt)
    (hres : (Grid.build pnts m).getNearestPoint q fuel = some res) :
    res ∈ pnts ∧ ∀ r ∈ pnts, sqrDist q res ≤ sqrDist q r := by
  have hres' : (match (Grid.build pnts m).calcNearestPointInGridCell q
      ((Grid.build pnts m).getGridCoords q) with
    | some (np, s) =>
      if sqrtLE s ((Grid.build pnts m).getPointCellBorderDistances q
            ((Grid.build pnts m).getGridCoords q) 0)
          ∧ sqrtLE s ((Grid.build pnts m).getPointCellBorderDistances q
            ((Grid.build pnts m).getGridCoords q) 1)
          ∧ sqrtLE s ((Grid.build pnts m).getPointCellBorderDistances q
            ((Grid.build pnts m).getGridCoords q) 2)
          ∧ sqrtLE s ((Grid.build pnts m).getPointCellBorderDistances q
            ((Grid.build pnts m).getGridCoords q) 3)
          ∧ sqrtLE s ((Grid.build pnts m).getPointCellBorderDistances q
            ((Grid.build pnts m).getGridCoords q) 4)
          ∧ sqrtLE s ((Grid.build pnts m).getPointCellBorderDistances q
            ((Grid.build pnts m).getGridCoords q) 5) then
        some np
      else
        some ((Grid.build pnts m).finalize q np s)
    | none =>
      match (Grid.build pnts m).ringLoop q ((Grid.build pnts m).getGridCoords q) fuel 1
          (sqrDist (Grid.build pnts m).min_pnt (Grid.build pnts m).max_pnt) with
      | some (np, s) => some ((Grid.build pnts m).finalize q np s)
      | none => none) = some res := hres
  cases hcalc : (Grid.build pnts m).calcNearestPointInGridCell q
      ((Grid.build pnts m).getGridCoords q) with
  | some nps =>
    obtain ⟨np, s⟩ := nps
    rw [hcalc] at hres'
    have hres2 : (if sqrtLE s ((Grid.build pnts m).getPointCellBorderDistances q
            ((Grid.build pnts m).getGridCoords q) 0)
          ∧ sqrtLE s ((Grid.build pnts m).getPointCellBorderDistances q
            ((Grid.build pnts m).getGridCoords q) 1)
          ∧ sqrtLE s ((Grid.build pnts m).getPointCellBorderDistances q
            ((Grid.build pnts m).getGridCoords q) 2)
          ∧ sqrtLE s ((Grid.build pnts m).getPointCellBorderDistances q
            ((Grid.build pnts m).getGridCoords q) 3)
          ∧ sqrtLE s ((Grid.build pnts m).getPointCellBorderDistances q
            ((Grid.build pnts m).getGridCoords q) 4)
          ∧ sqrtLE s ((Grid.build pnts m).getPointCellBorderDistances q
            ((Grid.build pnts m).getGridCoords q) 5) then
        some np
      else
        some ((Grid.build pnts m).finalize q np s)) = some res := hres'
    split_ifs at hres2 with hcond
    · have hnr : np = res := Option.some.inj hres2
      rw [← hnr]
      have hd : ∀ f : Fin 6, sqrtLE s ((Grid.build pnts m).getPointCellBorderDistances q
          ((Grid.build pnts m).getGridCoords q) f) = true := by
        intro f
        fin_cases f
        · exact hcond.1
        · exact hcond.2.1
        · exact hcond.2.2.1
        · exact hcond.2.2.2.1
        · exact hcond.2.2.2.2.1
        · exact hcond.2.2.2.2.2
      exact early_return_minimal pnts m hok q np s hcalc hd
    · obtain ⟨hnp, hsval, _, _⟩ := calc_some_spec pnts m q _ np s hcalc
      have hs : s = sqrDist q np := by rw [hsval, sqrDist_comm]
      have hf := finalize_correct pnts m hok q np hnp s hs
      have he : (Grid.build pnts m).finalize q np s = res := Option.some.inj hres2
      rw [← he]
      exact hf
  | none =>
    rw [hcalc] at hres'
    cases hrl : (Grid.build pnts m).ringLoop q ((Grid.build pnts m).getGridCoords q) fuel 1
        (sqrDist (Grid.build pnts m).min_pnt (Grid.build pnts m).max_pnt) with
    | none =>
      rw [hrl] at hres'
      have hcontra : (none : Option Pnt) = some res := hres'
      cases hcontra
    | some ps =>
      obtain ⟨np, s⟩ := ps
      rw [hrl] at hres'
      obtain ⟨hnp, hsval⟩ := ringLoop_inv pnts m q _ fuel 1 _ np s hrl
      have hs : s = sqrDist q np := by rw [hsval, sqrDist_comm]
      have hf := finalize_correct pnts m hok q np hnp s hs
      have he : some ((Grid.build pnts m).finalize q np s) = some res := hres'
      have he2 := Option.some.inj he
      rw [← he2]
      exact hf

/-- witness for `C1_nearest_sound`: on the grid of `wPnts` the query
`(1/5, 0, 0)` returns the origin, which is an input point of minimal
squared distance. -/
theorem C1_nearest_sound_witness :
    (Grid.build wPnts 512).getNearestPoint ![1/5, 0, 0] 1 = some ![0, 0, 0]
    ∧ (![0, 0, 0] : Pnt) ∈ wPnts
    ∧ ∀ r ∈ wPnts, sqrDist ![1/5, 0, 0] (![0, 0, 0] : Pnt) ≤ sqrDist ![1/5, 0, 0] r :=
  ⟨by decide,
    (C1_nearest_sound wPnts 512 ⟨by decide, by decide, by decide, by decide, by decide⟩
      ![1/5, 0, 0] 1 ![0, 0, 0] (by decide)).1,
    (C1_nearest_sound wPnts 512 ⟨by decide, by decide, by decide, by decide, by decide⟩
      ![1/5, 0, 0] 1 ![0, 0, 0] (by decide)).2⟩

end OGS

